import Mathlib

/-!
# Verification of the xgboost CPU predictor (src/predictor/cpu_predictor.cc)

A shallow embedding of the batch prediction engine.  Scalar `bst_float` values
are modelled as rationals (`ℚ`), so every algebraic identity below is exact.
Buffers are Lean lists with C-style indexed reads (`List.getD`) and writes
(`List.set`); an out-of-range write is the identity, and theorems carry the
in-range hypotheses under which the C++ code is defined.

External collaborators (the tree data structure, its traversal and attribution
algorithms) are abstracted as function fields, exactly as the spec's §6 treats
them.  The parallel `common::ParallelFor` loops write disjoint output slots, so
they are embedded as the equivalent sequential schedule with thread id 0.
-/

namespace CpuPredictor

/-- One sparse element (`Entry`): a feature index and its value. -/
structure Entry where
  index : Nat
  value : ℚ
deriving DecidableEq

/-- A sparse row (`SparsePage::Inst`): a list of entries. -/
abbrev Inst := List Entry

/-- Modelled from the spec: `RegTree::FVec` is declared in
`include/xgboost/tree_model.h`, which is not among this repository's sources.
Per the spec §3, it is a dense feature buffer (`none` marks a missing value);
`Fill` overlays a sparse row's (index, value) pairs onto the dense buffer and
`Drop` reverses the overlay by resetting exactly the entries the row touched. -/
structure FVec where
  data : List (Option ℚ)
deriving DecidableEq

/-- `RegTree::FVec::Size`. -/
def FVec.size (f : FVec) : Nat := f.data.length

/-- `RegTree::FVec::Init(n)`: a buffer of `n` missing values. -/
def FVec.init (n : Nat) : FVec := ⟨List.replicate n none⟩

/-- `RegTree::FVec::Fill(inst)`: overlay the row's entries onto the buffer. -/
def FVec.fill (f : FVec) (inst : Inst) : FVec :=
  ⟨inst.foldl (fun d e => d.set e.index (some e.value)) f.data⟩

/-- `RegTree::FVec::Drop(inst)`: reset exactly the entries the row touched. -/
def FVec.drop (f : FVec) (inst : Inst) : FVec :=
  ⟨inst.foldl (fun d e => d.set e.index none) f.data⟩

/-- `RegTree::FVec::HasMissing`. -/
def FVec.hasMissing (f : FVec) : Bool := f.data.any fun v => v.isNone

/-- External interface of one tree (`RegTree`), out of scope per the spec §6:
leaf lookup and per-feature attribution are abstract functions.  `getLeafIndex`
abstracts the `GetLeafIndex<true/false>` pair (the missing-flag only selects a
fast path, both variants agree on the vectors they are called with).
`calcContribs feats gi condition condition_feature slot` is slot `slot` of the
buffer written by `CalculateContributions`, and `calcContribsApprox` the
approximate variant. -/
structure RegTree where
  getLeafIndex : FVec → Nat
  leafValue : Nat → ℚ
  calcContribs : FVec → Option (List Int) → Int → Nat → Nat → ℚ
  calcContribsApprox : FVec → Nat → ℚ

instance : Inhabited RegTree :=
  ⟨⟨fun _ => 0, fun _ => 0, fun _ _ _ _ _ => 0, fun _ _ => 0⟩⟩

/-- The parts of `gbm::GBTreeModel` and `LearnerModelParam` the predictor reads:
the ordered tree list, the parallel tree→output-group array `tree_info`, and the
learner parameters. -/
structure GBTreeModel where
  trees : List RegTree
  tree_info : List Nat
  num_output_group : Nat
  num_feature : Nat
  base_score : ℚ
  size_leaf_vector : Nat

/-- `PredValueByOneTree` (cpu_predictor.cc:46): the leaf value of one tree at a
filled feature vector. -/
def PredValueByOneTree (feats : FVec) (tree : RegTree) : ℚ :=
  tree.leafValue (tree.getLeafIndex feats)

/-- C-style accumulate `buf[idx] += v` on a flat buffer (out of range: no-op,
as the C++ is only defined in range). -/
def addAt (l : List ℚ) (idx : Nat) (v : ℚ) : List ℚ :=
  l.set idx (l.getD idx 0 + v)

/-- `PredictByAllTrees` (cpu_predictor.cc:53): trees outer, the block's rows
inner; tree `tree_id` of group `gid` adds its leaf value for block row `i` into
`preds[(predict_offset + i) * num_group + gid]`. -/
def PredictByAllTrees (model : GBTreeModel) (tree_begin tree_end : Nat)
    (preds : List ℚ) (predict_offset num_group : Nat)
    (thread_temp : List FVec) (offset block_size : Nat) : List ℚ :=
  (List.range' tree_begin (tree_end - tree_begin)).foldl (fun preds tree_id =>
    let gid := model.tree_info.getD tree_id 0
    (List.range block_size).foldl (fun preds i =>
      addAt preds ((predict_offset + i) * num_group + gid)
        (PredValueByOneTree (thread_temp.getD (offset + i) (FVec.init 0))
          (model.trees.getD tree_id default))) preds) preds

/-- A materialized row view (`SparsePageView`, cpu_predictor.cc:91): a base row
id plus indexed sparse rows. -/
structure DataView where
  base_rowid : Nat
  rows : List Inst

/-- `DataView::Size()`. -/
def DataView.size (b : DataView) : Nat := b.rows.length

/-- `DataView::operator[]`. -/
def DataView.row (b : DataView) (i : Nat) : Inst := b.rows.getD i []

/-- `FVecFill` (cpu_predictor.cc:69): size each untouched vector once, then
fill each of the block's feature vectors from its row. -/
def FVecFill (block_size batch_offset num_feature : Nat) (batch : DataView)
    (fvec_offset : Nat) (p_feats : List FVec) : List FVec :=
  (List.range block_size).foldl (fun feats i =>
    let f := feats.getD (fvec_offset + i) (FVec.init 0)
    let f := if f.size = 0 then FVec.init num_feature else f
    feats.set (fvec_offset + i) (f.fill (batch.row (batch_offset + i)))) p_feats

/-- `FVecDrop` (cpu_predictor.cc:80): release the block's sparse overlays. -/
def FVecDrop (block_size batch_offset : Nat) (batch : DataView)
    (fvec_offset : Nat) (p_feats : List FVec) : List FVec :=
  (List.range block_size).foldl (fun feats i =>
    feats.set (fvec_offset + i)
      ((feats.getD (fvec_offset + i) (FVec.init 0)).drop
        (batch.row (batch_offset + i)))) p_feats

/-- `PredictBatchByBlockOfRowsKernel` (cpu_predictor.cc:147), embedded as the
single-threaded schedule (`omp_get_thread_num() = 0`; the parallel blocks own
disjoint row ranges, hence disjoint output slots, so every schedule computes
these same values).  `none` models the fatal `CHECK_EQ(size_leaf_vector, 0)`. -/
def PredictBatchByBlockOfRowsKernel (block_of_rows_size : Nat) (batch : DataView)
    (out_preds : List ℚ) (model : GBTreeModel) (tree_begin tree_end : Nat)
    (p_thread_temp : List FVec) : Option (List ℚ × List FVec) :=
  if model.size_leaf_vector ≠ 0 then none else
  let num_group := model.num_output_group
  let nsize := batch.size
  let num_feature := model.num_feature
  let n_row_blocks := nsize / block_of_rows_size +
    (if nsize % block_of_rows_size = 0 then 0 else 1)
  some ((List.range n_row_blocks).foldl (fun st block_id =>
    let batch_offset := block_id * block_of_rows_size
    let block_size := min (nsize - batch_offset) block_of_rows_size
    let fvec_offset := 0
    let temp := FVecFill block_size batch_offset num_feature batch fvec_offset st.2
    let preds := PredictByAllTrees model tree_begin tree_end st.1
      (batch_offset + batch.base_rowid) num_group temp fvec_offset block_size
    (preds, FVecDrop block_size batch_offset batch fvec_offset temp))
    (out_preds, p_thread_temp))

/-- `kBlockOfRowsSize` (cpu_predictor.cc:483). -/
def kBlockOfRowsSize : Nat := 64

/-- `CPUPredictor::InitOutPredictions` (cpu_predictor.cc:202).  `none` models
the fatal `CHECK_NE(num_output_group, 0)`.  Otherwise the result is the output
buffer of length `num_output_group * num_row` (the base margin copied verbatim
when its length matches exactly, the scalar base score everywhere otherwise),
paired with the warning payload: `some n` when a non-empty, wrongly sized base
margin was ignored, `n` being the expected length the warning names. -/
def InitOutPredictions (num_row : Nat) (base_margin : List ℚ)
    (model : GBTreeModel) : Option (List ℚ × Option Nat) :=
  if model.num_output_group = 0 then none else
  let n := model.num_output_group * num_row
  if base_margin.length = n then
    some (base_margin, none)
  else if base_margin ≠ [] then
    some (List.replicate n model.base_score, some n)
  else
    some (List.replicate n model.base_score, none)

/-- The closed set of runtime type tags `InplacePredict` dispatches on
(cpu_predictor.cc:282-293); `other` stands for any `x` whose type is none of
the four supported adapter kinds. -/
inductive AdapterTag where
  | dense
  | csr
  | array
  | csrArray
  | other
deriving DecidableEq

/-- An in-place input: a runtime type tag plus the payload every supported
adapter exposes (`NumRows`, `NumColumns`, per-row dense-with-missing value
iteration via `GetLine`). -/
structure Adapter where
  tag : AdapterTag
  lines : List (List Entry)
  num_columns : Nat

/-- `AdapterView::operator[]` (cpu_predictor.cc:119): the row's elements with
the `missing` sentinel filtered out.  The per-thread round-robin unroll window
is memory management for these very values, so the view is embedded by the
sparse slices it yields.  `common::CheckNAN` never fires over `ℚ` (there is no
NaN rational). -/
def adapterRow (m : Adapter) (missing : ℚ) (i : Nat) : Inst :=
  (m.lines.getD i []).filter fun e => missing ≠ e.value

/-- `AdapterView` as a `DataView` (`base_rowid = 0`, `Size = NumRows`). -/
def AdapterView (m : Adapter) (missing : ℚ) : DataView :=
  { base_rowid := 0
    rows := (List.range m.lines.length).map (adapterRow m missing) }

/-- `CPUPredictor::DispatchedInplacePredict` (cpu_predictor.cc:251): the fatal
feature-count check (`CHECK_EQ(m->NumColumns(), num_feature)`) fires before any
output is produced; then output initialization and the block kernel over the
adapter view.  `Except.error` models the fatal CHECKs: no partial result
escapes.  The thread scratch is the freshly sized `InitThreadTemp` pool for one
thread (`threads * kBlockOfRowsSize` empty vectors). -/
def DispatchedInplacePredict (m : Adapter) (base_margin : List ℚ)
    (model : GBTreeModel) (missing : ℚ) (tree_begin tree_end : Nat) :
    Except String (List ℚ) :=
  if m.num_columns ≠ model.num_feature then
    .error ("Number of columns in data must equal to trained model.")
  else
    match InitOutPredictions m.lines.length base_margin model with
    | none => .error ("num_output_group must not be zero")
    | some (init, _) =>
      match PredictBatchByBlockOfRowsKernel kBlockOfRowsSize
          (AdapterView m missing) init model tree_begin tree_end
          (List.replicate kBlockOfRowsSize (FVec.init 0)) with
      | none => .error ("size_leaf_vector is enforced to 0 so far")
      | some st => .ok st.1

/-- `CPUPredictor::InplacePredict` (cpu_predictor.cc:278): dispatch on the
runtime type tag; `none` models the `return false` ("not handled") outcome for
an unsupported tag, `some` the dispatched call followed by `return true`. -/
def InplacePredict (m : Adapter) (base_margin : List ℚ) (model : GBTreeModel)
    (missing : ℚ) (tree_begin tree_end : Nat) :
    Option (Except String (List ℚ)) :=
  match m.tag with
  | .dense => some (DispatchedInplacePredict m base_margin model missing tree_begin tree_end)
  | .csr => some (DispatchedInplacePredict m base_margin model missing tree_begin tree_end)
  | .array => some (DispatchedInplacePredict m base_margin model missing tree_begin tree_end)
  | .csrArray => some (DispatchedInplacePredict m base_margin model missing tree_begin tree_end)
  | .other => none

/-- `PredValue` (cpu_predictor.cc:29): fill the feature vector with the row,
sum the leaf values of the trees in `[tree_begin, tree_end)` assigned to
`bst_group`, drop the row again (the drop only affects the buffer, which the
caller owns; the returned sum is over the filled buffer). -/
def PredValue (inst : Inst) (trees : List RegTree) (tree_info : List Nat)
    (bst_group : Nat) (p_feats : FVec) (tree_begin tree_end : Nat) : ℚ :=
  let filled := p_feats.fill inst
  (List.range' tree_begin (tree_end - tree_begin)).foldl (fun psum i =>
    if tree_info.getD i 0 = bst_group then
      psum + (trees.getD i default).leafValue
        ((trees.getD i default).getLeafIndex filled)
    else psum) 0

/-- `CPUPredictor::PredictInstance` (cpu_predictor.cc:300): the tree limit is
first multiplied by the number of output groups, then resolved to all trees
when zero or exceeding the tree count; one feature vector sized to the model,
one output slot per group.  The buffer is resized to
`num_output_group * (size_leaf_vector + 1)`; slots the group loop does not
write are the value-initialized `0`. -/
def PredictInstance (inst : Inst) (model : GBTreeModel) (ntree_limit : Nat) :
    List ℚ :=
  let limit0 := ntree_limit * model.num_output_group
  let limit := if limit0 = 0 ∨ model.trees.length < limit0 then
    model.trees.length else limit0
  (List.range (model.num_output_group * (model.size_leaf_vector + 1))).map
    fun gid =>
      if gid < model.num_output_group then
        PredValue inst model.trees model.tree_info gid
          (FVec.init model.num_feature) 0 limit + model.base_score
      else 0

/-- `CPUPredictor::PredictLeaf` (cpu_predictor.cc:320): per row, per tree below
the resolved limit, the leaf node id reached, as a float; row-major, tree-minor
layout (`preds[ridx * ntree_limit + j]`).  The limit resolves to all trees when
zero or exceeding the tree count and is an absolute tree count.  Each per-row
feature vector is filled from the row and dropped right after, so every tree
sees the row overlaid on a clean buffer. -/
def PredictLeaf (rows : List Inst) (model : GBTreeModel) (ntree_limit : Nat) :
    List ℚ :=
  let limit := if ntree_limit = 0 ∨ model.trees.length < ntree_limit then
    model.trees.length else ntree_limit
  (List.range rows.length).flatMap fun i =>
    (List.range limit).map fun j =>
      (((model.trees.getD j default).getLeafIndex
        ((FVec.init model.num_feature).fill (rows.getD i []))) : ℚ)

/-- The selected-feature count: `group_indices == nullptr ? num_feature :
num_feat_group` (cpu_predictor.cc:371, 436); `gi` models the
`(group_indices, num_feat_group)` pair. -/
def selectedFeatures (model : GBTreeModel) (gi : Option (List Int)) : Nat :=
  match gi with
  | none => model.num_feature
  | some l => l.length

/-- One (row, group) chunk of `CPUPredictor::PredictContribution`
(cpu_predictor.cc:395-417): accumulate, over the trees below the resolved
limit that are assigned to `gid`, the per-slot attribution written by
`CalculateContributions` (or the approximate variant), scaled by the optional
per-tree weight (default 1). -/
def contribAccum (model : GBTreeModel) (nt : Nat) (tree_weights : Option (List ℚ))
    (approximate : Bool) (gi : Option (List Int)) (condition : Int)
    (condition_feature : Nat) (ncolumns : Nat) (gid : Nat) (feats : FVec) :
    List ℚ :=
  (List.range nt).foldl (fun acc j =>
    if model.tree_info.getD j 0 = gid then
      let tree := model.trees.getD j default
      let w : ℚ := match tree_weights with
        | none => 1
        | some ws => ws.getD j 0
      (List.range ncolumns).map fun ci =>
        acc.getD ci 0 +
          (if approximate then tree.calcContribsApprox feats ci
           else tree.calcContribs feats gi condition condition_feature ci) * w
    else acc) (List.replicate ncolumns 0)

/-- `CPUPredictor::PredictContribution` (cpu_predictor.cc:355): per row and
output group, a chunk of `ncolumns = selected-feature-count + 1` slots (last
slot = bias); the tree limit resolves to all trees when zero or out of range;
after the accumulation the bias slot receives the per-row base margin entry
when the supplied base margin is non-empty — its size is NOT checked here —
and the scalar base score otherwise.  `gi` models the
`(group_indices, num_feat_group)` pair (cc:371).  The `FillNodeMeanValues`
pre-pass mutates only external tree state and the fatal
`CHECK_NE(ngroup, 0)` / `CHECK_NE(ncolumns, 0)` guards appear as hypotheses of
the theorems below (`ncolumns` is a successor here, so never zero). -/
def PredictContribution (rows : List Inst) (base_margin : List ℚ)
    (model : GBTreeModel) (ntree_limit : Nat) (tree_weights : Option (List ℚ))
    (approximate : Bool) (gi : Option (List Int)) (condition : Int)
    (condition_feature : Nat) : List ℚ :=
  let nt := if ntree_limit = 0 ∨ model.trees.length < ntree_limit then
    model.trees.length else ntree_limit
  let ngroup := model.num_output_group
  let ncolumns := selectedFeatures model gi + 1
  (List.range rows.length).flatMap fun r =>
    (List.range ngroup).flatMap fun gid =>
      let feats := (FVec.init model.num_feature).fill (rows.getD r [])
      addAt (contribAccum model nt tree_weights approximate gi condition
          condition_feature ncolumns gid feats)
        (ncolumns - 1)
        (if base_margin ≠ [] then base_margin.getD (r * ngroup + gid) 0
         else model.base_score)

/-- The diagonal cell written by the composition loop of
`PredictInteractionContributions` (cpu_predictor.cc:467-475): starts at 0, then
for `k` ascending adds the baseline attribution at `k = i` and subtracts each
off-diagonal interaction `(on k - off k) / 2` at `k ≠ i` — the exact loop
order. -/
def interactionDiag (diagv : ℚ) (onv offv : Nat → ℚ) (ncols1 i : Nat) : ℚ :=
  (List.range ncols1).foldl (fun acc k =>
    if k = i then acc + diagv else acc - (onv k - offv k) / 2) 0

/-- Row `i` of one (row, group) interaction matrix: slot `k ≠ i` holds
`(on k - off k) / 2`, slot `i` the diagonal cell. -/
def interactionRow (diagv : ℚ) (onv offv : Nat → ℚ) (ncols1 i : Nat) :
    List ℚ :=
  (List.range ncols1).map fun k =>
    if k = i then interactionDiag diagv onv offv ncols1 i
    else (onv k - offv k) / 2

/-- `CPUPredictor::PredictInteractionContributions` (cpu_predictor.cc:430):
one baseline (unconditioned) contribution pass, then per conditioning feature
`i` (bias index included) an off pass (`condition = -1`) and an on pass
(`condition = 1`), composed into the `(ncolumns+1) × (ncolumns+1)` matrix per
row and group with layout
`j*row_chunk + l*mrow_chunk + i*(ncolumns+1) + k`.  Every cell is written by
exactly one `(i, k)` iteration, so the buffer is the flat concatenation of the
composed rows; `ncolumns` here does not include the bias (cc:436). -/
def PredictInteractionContributions (rows : List Inst) (base_margin : List ℚ)
    (model : GBTreeModel) (ntree_limit : Nat) (tree_weights : Option (List ℚ))
    (approximate : Bool) (gi : Option (List Int)) : List ℚ :=
  let ngroup := model.num_output_group
  let ncolumns := selectedFeatures model gi
  let contribs_diag := PredictContribution rows base_margin model ntree_limit
    tree_weights approximate gi 0 0
  (List.range rows.length).flatMap fun j =>
    (List.range ngroup).flatMap fun l =>
      (List.range (ncolumns + 1)).flatMap fun i =>
        let contribs_off := PredictContribution rows base_margin model
          ntree_limit tree_weights approximate gi (-1) i
        let contribs_on := PredictContribution rows base_margin model
          ntree_limit tree_weights approximate gi 1 i
        let c_offset := j * (ngroup * (ncolumns + 1)) + l * (ncolumns + 1)
        interactionRow (contribs_diag.getD (c_offset + i) 0)
          (fun k => contribs_on.getD (c_offset + k) 0)
          (fun k => contribs_off.getD (c_offset + k) 0) (ncolumns + 1) i

/-! ## Buffer overlay lemmas: `Fill` / `Drop` round trips -/

lemma foldl_set_length (inst : List Entry) (g : Entry → Option ℚ)
    (d : List (Option ℚ)) :
    (inst.foldl (fun d e => d.set e.index (g e)) d).length = d.length := by
  induction inst generalizing d with
  | nil => rfl
  | cons e rest ih => simp [List.foldl_cons, ih, List.length_set]

lemma foldl_set_getElem_of_not_touched (inst : List Entry) (g : Entry → Option ℚ)
    (d : List (Option ℚ)) (j : Nat) (h : ∀ e ∈ inst, e.index ≠ j) :
    (inst.foldl (fun d e => d.set e.index (g e)) d)[j]? = d[j]? := by
  induction inst generalizing d with
  | nil => rfl
  | cons e rest ih =>
    rw [List.foldl_cons, ih _ fun x hx => h x (List.mem_cons_of_mem _ hx),
      List.getElem?_set_ne (h e (List.mem_cons_self _ _))]

lemma foldl_set_none_getElem_of_touched (inst : List Entry)
    (d : List (Option ℚ)) (j : Nat) (h : ∃ e ∈ inst, e.index = j)
    (hj : j < d.length) :
    (inst.foldl (fun d e => d.set e.index (none : Option ℚ)) d)[j]? =
      some none := by
  induction inst generalizing d with
  | nil => simp at h
  | cons e rest ih =>
    rw [List.foldl_cons]
    by_cases hrest : ∃ x ∈ rest, x.index = j
    · exact ih _ hrest (by simpa [List.length_set] using hj)
    · have he : e.index = j := by
        rcases h with ⟨x, hx, hxj⟩
        rcases List.mem_cons.mp hx with rfl | hx
        · exact hxj
        · exact absurd ⟨x, hx, hxj⟩ hrest
      rw [foldl_set_getElem_of_not_touched _ _ _ _
        (fun x hx hxj => hrest ⟨x, hx, hxj⟩), he,
        List.getElem?_set_self (by simpa using hj)]

/-- The spec §3 invariant's precondition: every entry the row touches is
missing in the buffer (true of a pool vector between `Fill`/`Drop` pairs). -/
def FVec.rowClean (f : FVec) (inst : Inst) : Prop :=
  ∀ e ∈ inst, f.data[e.index]? = some none

instance (f : FVec) (inst : Inst) : Decidable (f.rowClean inst) := by
  unfold FVec.rowClean; infer_instance

lemma FVec.size_fill (f : FVec) (inst : Inst) : (f.fill inst).size = f.size :=
  foldl_set_length ..

lemma FVec.size_drop (f : FVec) (inst : Inst) : (f.drop inst).size = f.size :=
  foldl_set_length inst (fun _ => none) f.data

/-- Spec §3 invariant: after `Drop`, the buffer is restored to its state before
the matching `Fill`, for any row whose entries were missing beforehand. -/
theorem FVec.drop_fill (f : FVec) (inst : Inst) (h : f.rowClean inst) :
    (f.fill inst).drop inst = f := by
  rcases f with ⟨d⟩
  unfold FVec.fill FVec.drop
  congr 1
  apply List.ext_getElem?
  intro j
  by_cases ht : ∃ e ∈ inst, e.index = j
  · have hj : j < d.length := by
      rcases ht with ⟨e, he, rfl⟩
      exact (List.getElem?_eq_some_iff.mp (h e he)).1
    rw [foldl_set_none_getElem_of_touched _ _ _ ht
      (by simpa [foldl_set_length] using hj)]
    rcases ht with ⟨e, he, rfl⟩
    exact (h e he).symm
  · push_neg at ht
    rw [foldl_set_getElem_of_not_touched _ _ _ _ ht,
      foldl_set_getElem_of_not_touched _ _ _ _ ht]

/-- C6: Feature-vector reuse idempotence.  For a pooled feature vector (its
entries missing before the fill, as `Init` leaves them and as every earlier
balanced `Fill`/`Drop` pair restores them), dropping a row after filling it
restores the dense buffer exactly, so filling again yields the identical
buffer and evaluating any tree on it yields the identical result both
times. -/
theorem fvec_fill_drop_idempotent (f : FVec) (inst : Inst)
    (h : f.rowClean inst) :
    (f.fill inst).drop inst = f ∧
    ((f.fill inst).drop inst).fill inst = f.fill inst ∧
    ∀ tree : RegTree,
      PredValueByOneTree (((f.fill inst).drop inst).fill inst) tree =
        PredValueByOneTree (f.fill inst) tree := by
  refine ⟨FVec.drop_fill f inst h, ?_, ?_⟩
  · rw [FVec.drop_fill f inst h]
  · intro tree
    rw [FVec.drop_fill f inst h]

theorem fvec_fill_drop_idempotent_witness :
    (FVec.init 3).rowClean [⟨0, 5⟩, ⟨2, 7⟩] ∧
    (((FVec.init 3).fill [⟨0, 5⟩, ⟨2, 7⟩]).drop [⟨0, 5⟩, ⟨2, 7⟩] =
      FVec.init 3 ∧
    (((FVec.init 3).fill [⟨0, 5⟩, ⟨2, 7⟩]).drop [⟨0, 5⟩, ⟨2, 7⟩]).fill
        [⟨0, 5⟩, ⟨2, 7⟩] = (FVec.init 3).fill [⟨0, 5⟩, ⟨2, 7⟩] ∧
    ∀ tree : RegTree,
      PredValueByOneTree ((((FVec.init 3).fill [⟨0, 5⟩, ⟨2, 7⟩]).drop
        [⟨0, 5⟩, ⟨2, 7⟩]).fill [⟨0, 5⟩, ⟨2, 7⟩]) tree =
        PredValueByOneTree ((FVec.init 3).fill [⟨0, 5⟩, ⟨2, 7⟩]) tree) :=
  ⟨by decide, fvec_fill_drop_idempotent (FVec.init 3) [⟨0, 5⟩, ⟨2, 7⟩]
    (by decide)⟩

/-! ## Block partitioning -/

lemma blocks_cover_aux (n bs : Nat) (nb : Nat) :
    (List.range nb).flatMap
        (fun b => List.range' (b * bs) (min (n - b * bs) bs)) =
      List.range' 0 (min n (nb * bs)) := by
  induction nb with
  | zero => simp
  | succ m ih =>
    rw [List.range_succ, List.flatMap_append, ih, List.flatMap_cons,
      List.flatMap_nil, List.append_nil]
    have hmul : (m + 1) * bs = m * bs + bs := by ring
    rcases Nat.le_total (m * bs) n with h | h
    · have h1 : min n (m * bs) = m * bs := Nat.min_eq_right h
      have happ := List.range'_append_1 0 (m * bs) (min (n - m * bs) bs)
      rw [Nat.zero_add] at happ
      rw [h1, happ]
      congr 1
      omega
    · have h1 : min n (m * bs) = n := Nat.min_eq_left h
      have h2 : min (n - m * bs) bs = 0 := by omega
      rw [h1, h2]
      have h3 : min n ((m + 1) * bs) = n := by omega
      rw [h3]
      simp

/-- The kernel's blocks partition `[0, n)` exactly: block `b` is the contiguous
range starting at `b * bs` of size `min (n - b * bs) bs`, and their
concatenation in order is exactly the row range. -/
lemma ceil_mul_ge (n bs : Nat) (hbs : 0 < bs) :
    n ≤ (n / bs + if n % bs = 0 then 0 else 1) * bs := by
  have hlt : n % bs < bs := Nat.mod_lt n hbs
  rcases Nat.eq_zero_or_pos (n % bs) with h0 | h0
  · rw [if_pos h0, Nat.add_zero,
      Nat.div_mul_cancel (Nat.dvd_of_mod_eq_zero h0)]
  · rw [if_neg (by omega)]
    calc n = bs * (n / bs) + n % bs := (Nat.div_add_mod n bs).symm
    _ ≤ bs * (n / bs) + bs := Nat.add_le_add_left (le_of_lt hlt) _
    _ = (n / bs + 1) * bs := by ring

lemma blocks_cover (n bs : Nat) (hbs : 0 < bs) :
    (List.range (n / bs + if n % bs = 0 then 0 else 1)).flatMap
        (fun b => List.range' (b * bs) (min (n - b * bs) bs)) =
      List.range n := by
  rw [blocks_cover_aux, Nat.min_eq_left (ceil_mul_ge n bs hbs),
    List.range_eq_range']

/-- The kernel's block count is exactly `ceil(n / bs)`. -/
lemma n_row_blocks_eq_ceil (n bs : Nat) (hbs : 0 < bs) :
    n / bs + (if n % bs = 0 then 0 else 1) = (n + (bs - 1)) / bs := by
  have hdm := Nat.div_add_mod n bs
  have hlt : n % bs < bs := Nat.mod_lt n hbs
  rcases Nat.eq_zero_or_pos (n % bs) with h0 | h0
  · have hn : bs * (n / bs) = n := Nat.mul_div_cancel'
      (Nat.dvd_of_mod_eq_zero h0)
    have he : n + (bs - 1) = (bs - 1) + bs * (n / bs) := by
      rw [hn]
      exact Nat.add_comm ..
    rw [he, Nat.add_mul_div_left _ _ hbs,
      Nat.div_eq_of_lt (show bs - 1 < bs by omega), if_pos h0]
    omega
  · have hne : ¬ n % bs = 0 := by omega
    have hx : bs * (n / bs + 1) = bs * (n / bs) + bs := by ring
    have he : n + (bs - 1) = (n % bs - 1) + bs * (n / bs + 1) := by
      calc n + (bs - 1) = (bs * (n / bs) + n % bs) + (bs - 1) := by rw [hdm]
      _ = (n % bs - 1) + (bs * (n / bs) + bs) := by omega
      _ = (n % bs - 1) + bs * (n / bs + 1) := by rw [hx]
    rw [he, Nat.add_mul_div_left _ _ hbs,
      Nat.div_eq_of_lt (show n % bs - 1 < bs by omega), if_neg hne]
    omega

/-! ## Indexed accumulation lemmas -/

lemma addAt_length (l : List ℚ) (idx : Nat) (v : ℚ) :
    (addAt l idx v).length = l.length := List.length_set ..

lemma addAt_getD_ne (l : List ℚ) (idx : Nat) (v : ℚ) (j : Nat) (h : idx ≠ j) :
    (addAt l idx v).getD j 0 = l.getD j 0 := by
  simp [addAt, List.getD_eq_getElem?_getD, List.getElem?_set_ne h]

lemma addAt_getD_self (l : List ℚ) (idx : Nat) (v : ℚ) (h : idx < l.length) :
    (addAt l idx v).getD idx 0 = l.getD idx 0 + v := by
  simp [addAt, List.getD_eq_getElem?_getD, List.getElem?_set_self h]

lemma foldl_addAt_length (ix : Nat → Nat) (val : Nat → ℚ) (bsz : Nat)
    (preds : List ℚ) :
    ((List.range bsz).foldl (fun p i => addAt p (ix i) (val i)) preds).length =
      preds.length := by
  induction bsz with
  | zero => rfl
  | succ m ih => rw [List.range_succ, List.foldl_append, List.foldl_cons,
      List.foldl_nil, addAt_length, ih]

lemma foldl_addAt_getD_miss (ix : Nat → Nat) (val : Nat → ℚ) (bsz : Nat)
    (preds : List ℚ) (j : Nat) (h : ∀ i < bsz, ix i ≠ j) :
    ((List.range bsz).foldl (fun p i => addAt p (ix i) (val i)) preds).getD j 0 =
      preds.getD j 0 := by
  induction bsz with
  | zero => rfl
  | succ m ih =>
    rw [List.range_succ, List.foldl_append, List.foldl_cons, List.foldl_nil,
      addAt_getD_ne _ _ _ _ (h m (Nat.lt_succ_self m)),
      ih fun i hi => h i (Nat.lt_succ_of_lt hi)]

lemma foldl_addAt_getD_hit (ix : Nat → Nat) (val : Nat → ℚ) (bsz : Nat)
    (preds : List ℚ) (i0 : Nat) (hi : i0 < bsz)
    (hinj : ∀ i < bsz, ix i = ix i0 → i = i0) (hlt : ix i0 < preds.length) :
    ((List.range bsz).foldl (fun p i => addAt p (ix i) (val i)) preds).getD
        (ix i0) 0 =
      preds.getD (ix i0) 0 + val i0 := by
  induction bsz with
  | zero => omega
  | succ m ih =>
    rw [List.range_succ, List.foldl_append, List.foldl_cons, List.foldl_nil]
    rcases Nat.lt_or_ge i0 m with h | h
    · rw [addAt_getD_ne]
      · exact ih h fun i hi' hx => hinj i (Nat.lt_succ_of_lt hi') hx
      · intro hx
        have := hinj m (Nat.lt_succ_self m) hx
        omega
    · have hi0 : i0 = m := by omega
      subst hi0
      rw [addAt_getD_self _ _ _ (by rwa [foldl_addAt_length]),
        foldl_addAt_getD_miss]
      intro i hi' hx
      have := hinj i (Nat.lt_succ_of_lt hi') hx
      omega

/-! ## Output-slot addressing: `(row, group) ↦ row * num_group + group` -/

lemma slot_decomp {ng r g : Nat} (hg : g < ng) :
    (r * ng + g) / ng = r ∧ (r * ng + g) % ng = g := by
  have hng : 0 < ng := lt_of_le_of_lt (Nat.zero_le g) hg
  constructor
  · rw [Nat.mul_comm, Nat.mul_add_div hng, Nat.div_eq_of_lt hg, Nat.add_zero]
  · rw [Nat.mul_comm, Nat.mul_add_mod, Nat.mod_eq_of_lt hg]

/-- Distinct (row, group) pairs own distinct output slots. -/
lemma slot_inj {ng r1 g1 r2 g2 : Nat} (h1 : g1 < ng) (h2 : g2 < ng)
    (h : r1 * ng + g1 = r2 * ng + g2) : r1 = r2 ∧ g1 = g2 := by
  have d1 := slot_decomp (r := r1) h1
  have d2 := slot_decomp (r := r2) h2
  constructor
  · rw [← d1.1, ← d2.1, h]
  · rw [← d1.2, ← d2.2, h]

lemma getD_lt_of_forall_mem {l : List Nat} {ng : Nat} (hng : 0 < ng)
    (h : ∀ g ∈ l, g < ng) (t : Nat) : l.getD t 0 < ng := by
  rw [List.getD_eq_getElem?_getD]
  cases hx : l[t]? with
  | none => simpa using hng
  | some g => simpa using h g (List.getElem?_mem hx)

/-! ## The tree loop of `PredictByAllTrees`, slot by slot -/

lemma treeLoop_length (model : GBTreeModel) (ts : List Nat) (preds : List ℚ)
    (po ng : Nat) (temp : List FVec) (off bsz : Nat) :
    (ts.foldl (fun preds tree_id =>
      (List.range bsz).foldl (fun p i =>
        addAt p ((po + i) * ng + model.tree_info.getD tree_id 0)
          (PredValueByOneTree (temp.getD (off + i) (FVec.init 0))
            (model.trees.getD tree_id default))) preds) preds).length =
      preds.length := by
  induction ts generalizing preds with
  | nil => rfl
  | cons t ts ih =>
    rw [List.foldl_cons, ih, foldl_addAt_length]

lemma treeLoop_getD_miss (model : GBTreeModel) (ts : List Nat) (preds : List ℚ)
    (po ng : Nat) (temp : List FVec) (off bsz : Nat) (j : Nat)
    (hinfo : ∀ t, model.tree_info.getD t 0 < ng)
    (hmiss : ∀ i < bsz, ∀ g < ng, j ≠ (po + i) * ng + g) :
    (ts.foldl (fun preds tree_id =>
      (List.range bsz).foldl (fun p i =>
        addAt p ((po + i) * ng + model.tree_info.getD tree_id 0)
          (PredValueByOneTree (temp.getD (off + i) (FVec.init 0))
            (model.trees.getD tree_id default))) preds) preds).getD j 0 =
      preds.getD j 0 := by
  induction ts generalizing preds with
  | nil => rfl
  | cons t ts ih =>
    rw [List.foldl_cons, ih, foldl_addAt_getD_miss]
    intro i hi
    exact fun hx => hmiss i hi _ (hinfo t) hx.symm

lemma treeLoop_getD_hit (model : GBTreeModel) (ts : List Nat) (preds : List ℚ)
    (po ng : Nat) (temp : List FVec) (off bsz : Nat) (i0 g0 : Nat)
    (hinfo : ∀ t, model.tree_info.getD t 0 < ng)
    (hi : i0 < bsz) (hg : g0 < ng)
    (hlt : (po + i0) * ng + g0 < preds.length) :
    (ts.foldl (fun preds tree_id =>
      (List.range bsz).foldl (fun p i =>
        addAt p ((po + i) * ng + model.tree_info.getD tree_id 0)
          (PredValueByOneTree (temp.getD (off + i) (FVec.init 0))
            (model.trees.getD tree_id default))) preds) preds).getD
        ((po + i0) * ng + g0) 0 =
      preds.getD ((po + i0) * ng + g0) 0 +
      (ts.map fun t =>
        if model.tree_info.getD t 0 = g0 then
          PredValueByOneTree (temp.getD (off + i0) (FVec.init 0))
            (model.trees.getD t default)
        else 0).sum := by
  induction ts generalizing preds with
  | nil => simp
  | cons t ts ih =>
    rw [List.foldl_cons, List.map_cons, List.sum_cons,
      ih _ (by rwa [foldl_addAt_length])]
    have hstep : ((List.range bsz).foldl (fun p i =>
        addAt p ((po + i) * ng + model.tree_info.getD t 0)
          (PredValueByOneTree (temp.getD (off + i) (FVec.init 0))
            (model.trees.getD t default))) preds).getD ((po + i0) * ng + g0) 0 =
        preds.getD ((po + i0) * ng + g0) 0 +
        (if model.tree_info.getD t 0 = g0 then
          PredValueByOneTree (temp.getD (off + i0) (FVec.init 0))
            (model.trees.getD t default)
        else 0) := by
      by_cases hgid : model.tree_info.getD t 0 = g0
      · rw [if_pos hgid, hgid]
        exact foldl_addAt_getD_hit _ _ bsz preds i0 hi
          (fun i hi' hx => by
            have := slot_inj hg hg hx
            omega) hlt
      · rw [if_neg hgid, add_zero]
        exact foldl_addAt_getD_miss _ _ bsz preds _ fun i hi' hx => by
          exact hgid (slot_inj (hinfo t) hg hx).2
    rw [hstep]
    ring
/-! ## Per-block feature-vector state -/

lemma getD_set_self {α : Type} (l : List α) (i : Nat) (a d : α)
    (h : i < l.length) : (l.set i a).getD i d = a := by
  rw [List.getD_eq_getElem?_getD, List.getElem?_set_self h]
  rfl

lemma getD_set_ne {α : Type} (l : List α) (i j : Nat) (a d : α) (h : i ≠ j) :
    (l.set i a).getD j d = l.getD j d := by
  rw [List.getD_eq_getElem?_getD, List.getElem?_set_ne h,
    ← List.getD_eq_getElem?_getD]

lemma FVecFill_length (bs bo nf : Nat) (batch : DataView) (temp : List FVec) :
    (FVecFill bs bo nf batch 0 temp).length = temp.length := by
  unfold FVecFill
  induction bs with
  | zero => rfl
  | succ m ih =>
    rw [List.range_succ, List.foldl_append, List.foldl_cons, List.foldl_nil,
      List.length_set, ih]

lemma FVecFill_split (bs bo nf : Nat) (batch : DataView) (temp : List FVec) :
    FVecFill (bs + 1) bo nf batch 0 temp =
      (FVecFill bs bo nf batch 0 temp).set (0 + bs)
        ((if ((FVecFill bs bo nf batch 0 temp).getD (0 + bs)
              (FVec.init 0)).size = 0 then FVec.init nf
          else (FVecFill bs bo nf batch 0 temp).getD (0 + bs) (FVec.init 0)).fill
          (batch.row (bo + bs))) := by
  unfold FVecFill
  rw [List.range_succ, List.foldl_append, List.foldl_cons, List.foldl_nil]

lemma FVecFill_getD_ge (bs bo nf : Nat) (batch : DataView) (temp : List FVec)
    (j : Nat) (hj : bs ≤ j) :
    (FVecFill bs bo nf batch 0 temp).getD j (FVec.init 0) =
      temp.getD j (FVec.init 0) := by
  induction bs with
  | zero => rfl
  | succ m ih =>
    rw [FVecFill_split, getD_set_ne _ _ _ _ _ (by omega), ih (by omega)]

lemma FVecFill_getD_lt (bs bo nf : Nat) (batch : DataView) (temp : List FVec)
    (j : Nat) (hj : j < bs) (hbs : bs ≤ temp.length) :
    (FVecFill bs bo nf batch 0 temp).getD j (FVec.init 0) =
      (if (temp.getD j (FVec.init 0)).size = 0 then FVec.init nf
       else temp.getD j (FVec.init 0)).fill (batch.row (bo + j)) := by
  induction bs with
  | zero => omega
  | succ m ih =>
    rw [FVecFill_split]
    rcases Nat.lt_or_ge j m with h | h
    · rw [getD_set_ne _ _ _ _ _ (by omega), ih h (by omega)]
    · have hjm : j = m := by omega
      subst hjm
      simp only [Nat.zero_add]
      rw [getD_set_self _ _ _ _ (by rw [FVecFill_length]; omega),
        FVecFill_getD_ge _ _ _ _ _ _ (le_refl j)]

lemma FVecDrop_length (bs bo : Nat) (batch : DataView) (temp : List FVec) :
    (FVecDrop bs bo batch 0 temp).length = temp.length := by
  unfold FVecDrop
  induction bs with
  | zero => rfl
  | succ m ih =>
    rw [List.range_succ, List.foldl_append, List.foldl_cons, List.foldl_nil,
      List.length_set, ih]

lemma FVecDrop_split (bs bo : Nat) (batch : DataView) (temp : List FVec) :
    FVecDrop (bs + 1) bo batch 0 temp =
      (FVecDrop bs bo batch 0 temp).set (0 + bs)
        (((FVecDrop bs bo batch 0 temp).getD (0 + bs) (FVec.init 0)).drop
          (batch.row (bo + bs))) := by
  unfold FVecDrop
  rw [List.range_succ, List.foldl_append, List.foldl_cons, List.foldl_nil]

lemma FVecDrop_getD_ge (bs bo : Nat) (batch : DataView) (temp : List FVec)
    (j : Nat) (hj : bs ≤ j) :
    (FVecDrop bs bo batch 0 temp).getD j (FVec.init 0) =
      temp.getD j (FVec.init 0) := by
  induction bs with
  | zero => rfl
  | succ m ih =>
    rw [FVecDrop_split, getD_set_ne _ _ _ _ _ (by omega), ih (by omega)]

lemma FVecDrop_getD_lt (bs bo : Nat) (batch : DataView) (temp : List FVec)
    (j : Nat) (hj : j < bs) (hbs : bs ≤ temp.length) :
    (FVecDrop bs bo batch 0 temp).getD j (FVec.init 0) =
      (temp.getD j (FVec.init 0)).drop (batch.row (bo + j)) := by
  induction bs with
  | zero => omega
  | succ m ih =>
    rw [FVecDrop_split]
    rcases Nat.lt_or_ge j m with h | h
    · rw [getD_set_ne _ _ _ _ _ (by omega), ih h (by omega)]
    · have hjm : j = m := by omega
      subst hjm
      simp only [Nat.zero_add]
      rw [getD_set_self _ _ _ _ (by rw [FVecDrop_length]; omega),
        FVecDrop_getD_ge _ _ _ _ _ (le_refl j)]

/-- A pool vector between blocks: still untouched, or sized to the model and
all-missing (exactly what `InitThreadTemp` hands out and what a balanced
fill/drop leaves behind). -/
def CleanVec (nf : Nat) (f : FVec) : Prop :=
  f = FVec.init 0 ∨ f = FVec.init nf

instance (nf : Nat) (f : FVec) : Decidable (CleanVec nf f) := by
  unfold CleanVec
  infer_instance

lemma clean_if {nf : Nat} {f : FVec} (h : CleanVec nf f) :
    (if f.size = 0 then FVec.init nf else f) = FVec.init nf := by
  rcases h with rfl | rfl
  · simp [FVec.size, FVec.init]
  · cases nf with
    | zero => simp [FVec.size, FVec.init]
    | succ m => simp [FVec.size, FVec.init]

/-- A freshly sized vector is clean for any row with in-range indices. -/
lemma rowClean_init {nf : Nat} (inst : Inst) (h : ∀ e ∈ inst, e.index < nf) :
    (FVec.init nf).rowClean inst := by
  intro e he
  simp [FVec.init, List.getElem?_replicate, h e he]

lemma PredictByAllTrees_length (model : GBTreeModel) (tb te : Nat)
    (preds : List ℚ) (po ng : Nat) (temp : List FVec) (off bsz : Nat) :
    (PredictByAllTrees model tb te preds po ng temp off bsz).length =
      preds.length :=
  treeLoop_length model (List.range' tb (te - tb)) preds po ng temp off bsz

lemma PredictByAllTrees_getD_miss (model : GBTreeModel) (tb te : Nat)
    (preds : List ℚ) (po ng : Nat) (temp : List FVec) (off bsz : Nat) (j : Nat)
    (hinfo : ∀ t, model.tree_info.getD t 0 < ng)
    (hmiss : ∀ i < bsz, ∀ g < ng, j ≠ (po + i) * ng + g) :
    (PredictByAllTrees model tb te preds po ng temp off bsz).getD j 0 =
      preds.getD j 0 :=
  treeLoop_getD_miss model (List.range' tb (te - tb)) preds po ng temp off bsz
    j hinfo hmiss

lemma PredictByAllTrees_getD_hit (model : GBTreeModel) (tb te : Nat)
    (preds : List ℚ) (po ng : Nat) (temp : List FVec) (off bsz : Nat)
    (i0 g0 : Nat) (hinfo : ∀ t, model.tree_info.getD t 0 < ng)
    (hi : i0 < bsz) (hg : g0 < ng)
    (hlt : (po + i0) * ng + g0 < preds.length) :
    (PredictByAllTrees model tb te preds po ng temp off bsz).getD
        ((po + i0) * ng + g0) 0 =
      preds.getD ((po + i0) * ng + g0) 0 +
      ((List.range' tb (te - tb)).map fun t =>
        if model.tree_info.getD t 0 = g0 then
          PredValueByOneTree (temp.getD (off + i0) (FVec.init 0))
            (model.trees.getD t default)
        else 0).sum :=
  treeLoop_getD_hit model (List.range' tb (te - tb)) preds po ng temp off bsz
    i0 g0 hinfo hi hg hlt

/-- The loop body dispatched per block by the kernel (one `common::ParallelFor`
task, cpu_predictor.cc:161-171), named for the proofs below. -/
def blockStep (model : GBTreeModel) (batch : DataView) (tree_begin tree_end bs : Nat)
    (st : List ℚ × List FVec) (block_id : Nat) : List ℚ × List FVec :=
  let batch_offset := block_id * bs
  let block_size := min (batch.size - batch_offset) bs
  let temp := FVecFill block_size batch_offset model.num_feature batch 0 st.2
  (PredictByAllTrees model tree_begin tree_end st.1
      (batch_offset + batch.base_rowid) model.num_output_group temp 0 block_size,
   FVecDrop block_size batch_offset batch 0 temp)

lemma kernel_eq_fold (bs : Nat) (batch : DataView) (init : List ℚ)
    (model : GBTreeModel) (tb te : Nat) (temp0 : List FVec)
    (hslv : model.size_leaf_vector = 0) :
    PredictBatchByBlockOfRowsKernel bs batch init model tb te temp0 =
      some ((List.range
          (batch.size / bs + if batch.size % bs = 0 then 0 else 1)).foldl
        (blockStep model batch tb te bs) (init, temp0)) := by
  unfold PredictBatchByBlockOfRowsKernel blockStep
  rw [if_neg (by simp [hslv])]

/-- The per-row value the batch kernel accumulates into a (row, group) slot:
the sum of the leaf values of the trees in `[tree_begin, tree_end)` assigned to
that group, at the feature vector filled from the row. -/
def rowGroupSum (model : GBTreeModel) (batch : DataView) (tb te r g : Nat) : ℚ :=
  ((List.range' tb (te - tb)).map fun t =>
    if model.tree_info.getD t 0 = g then
      PredValueByOneTree ((FVec.init model.num_feature).fill (batch.row r))
        (model.trees.getD t default)
    else 0).sum

lemma row_feat_lt (batch : DataView) {nf : Nat}
    (hfeat : ∀ row ∈ batch.rows, ∀ e ∈ row, e.index < nf) (i : Nat) :
    ∀ e ∈ batch.row i, e.index < nf := by
  unfold DataView.row
  rw [List.getD_eq_getElem?_getD]
  cases hx : batch.rows[i]? with
  | none => simp
  | some row => simpa using hfeat row (List.getElem?_mem hx)

lemma kernel_fold_spec (model : GBTreeModel) (batch : DataView) (init : List ℚ)
    (temp0 : List FVec) (tb te bs : Nat) (k : Nat) (hbs : 0 < bs)
    (_hng : 0 < model.num_output_group)
    (hinfo : ∀ t, model.tree_info.getD t 0 < model.num_output_group)
    (htemp : bs ≤ temp0.length)
    (hclean0 : ∀ f ∈ temp0, CleanVec model.num_feature f)
    (hfeat : ∀ row ∈ batch.rows, ∀ e ∈ row, e.index < model.num_feature)
    (hlen : (batch.base_rowid + batch.size) * model.num_output_group ≤
      init.length) :
    ((List.range k).foldl (blockStep model batch tb te bs)
        (init, temp0)).1.length = init.length ∧
    ((List.range k).foldl (blockStep model batch tb te bs)
        (init, temp0)).2.length = temp0.length ∧
    (∀ f ∈ ((List.range k).foldl (blockStep model batch tb te bs)
        (init, temp0)).2, CleanVec model.num_feature f) ∧
    ∀ r, r < batch.size → ∀ g, g < model.num_output_group →
      ((List.range k).foldl (blockStep model batch tb te bs)
          (init, temp0)).1.getD
        ((batch.base_rowid + r) * model.num_output_group + g) 0 =
      init.getD ((batch.base_rowid + r) * model.num_output_group + g) 0 +
      (if r < k * bs then rowGroupSum model batch tb te r g else 0) := by
  induction k with
  | zero =>
    refine ⟨rfl, rfl, hclean0, ?_⟩
    intro r hr g hg
    rw [if_neg (by omega), add_zero]
    rfl
  | succ k ih =>
    obtain ⟨ihp, iht, ihc, ihv⟩ := ih
    rw [List.range_succ, List.foldl_append, List.foldl_cons, List.foldl_nil]
    have hx : (k + 1) * bs = k * bs + bs := by ring
    set T := ((List.range k).foldl (blockStep model batch tb te bs)
      (init, temp0)).2 with hT
    set p := ((List.range k).foldl (blockStep model batch tb te bs)
      (init, temp0)).1 with hp
    set bo := k * bs with hbo
    set bsz := min (batch.size - bo) bs with hbsz
    have hbszT : bsz ≤ T.length := by rw [iht]; omega
    -- the freshly filled vectors of this block
    have hfillj : ∀ j < bsz,
        (FVecFill bsz bo model.num_feature batch 0 T).getD j (FVec.init 0) =
          (FVec.init model.num_feature).fill (batch.row (bo + j)) := by
      intro j hj
      rw [FVecFill_getD_lt _ _ _ _ _ _ hj hbszT,
        clean_if (ihc _ (by
          rw [List.getD_eq_getElem _ _ (by omega)]
          exact List.getElem_mem _))]
    have hfillLen : (FVecFill bsz bo model.num_feature batch 0 T).length =
        T.length := FVecFill_length ..
    refine ⟨?_, ?_, ?_, ?_⟩
    · show (blockStep model batch tb te bs (p, T) k).1.length = init.length
      simp only [blockStep]
      rw [PredictByAllTrees_length]
      exact ihp
    · show (blockStep model batch tb te bs (p, T) k).2.length = temp0.length
      simp only [blockStep]
      rw [FVecDrop_length, FVecFill_length]
      exact iht
    · show ∀ f ∈ (blockStep model batch tb te bs (p, T) k).2,
        CleanVec model.num_feature f
      simp only [blockStep]
      intro f hf
      obtain ⟨j, hjlen, hjf⟩ := List.getElem_of_mem hf
      rw [FVecDrop_length, FVecFill_length] at hjlen
      rw [← List.getD_eq_getElem _ (FVec.init 0)
        (by rw [FVecDrop_length, FVecFill_length]; exact hjlen)] at hjf
      rcases Nat.lt_or_ge j bsz with hjb | hjb
      · rw [FVecDrop_getD_lt _ _ _ _ _ hjb (by rw [hfillLen]; exact hbszT),
          hfillj j hjb,
          FVec.drop_fill _ _ (rowClean_init _ (row_feat_lt batch hfeat _))]
          at hjf
        exact hjf ▸ Or.inr rfl
      · rw [FVecDrop_getD_ge _ _ _ _ _ hjb, FVecFill_getD_ge _ _ _ _ _ _ hjb]
          at hjf
        refine hjf ▸ ihc _ ?_
        rw [List.getD_eq_getElem _ _ hjlen]
        exact List.getElem_mem _
    · show ∀ r, r < batch.size → ∀ g, g < model.num_output_group →
        (blockStep model batch tb te bs (p, T) k).1.getD
          ((batch.base_rowid + r) * model.num_output_group + g) 0 = _
      simp only [blockStep]
      intro r hr g hg
      by_cases hcase : bo ≤ r ∧ r < bo + bsz
      · -- this block computes row r
        have hslot : batch.base_rowid + r = (bo + batch.base_rowid) + (r - bo) := by
          omega
        have hslotlt : (batch.base_rowid + r) * model.num_output_group + g <
            p.length := by
          rw [ihp]
          have h1 : (batch.base_rowid + r + 1) * model.num_output_group ≤
              (batch.base_rowid + batch.size) * model.num_output_group :=
            Nat.mul_le_mul_right _ (by omega)
          have h2 : (batch.base_rowid + r) * model.num_output_group +
              model.num_output_group =
              (batch.base_rowid + r + 1) * model.num_output_group := by ring
          omega
        rw [hslot, PredictByAllTrees_getD_hit _ _ _ _ _ _ _ _ _ _ _ hinfo
          (show r - bo < bsz by omega) hg (by rw [← hslot]; exact hslotlt)]
        rw [Nat.zero_add, hfillj _ (by omega),
          show bo + (r - bo) = r by omega, ← hslot, ihv r hr g hg]
        rw [if_neg (by omega), if_pos (by omega), add_zero]
        rfl
      · -- row r is owned by another block: untouched here
        rw [PredictByAllTrees_getD_miss _ _ _ _ _ _ _ _ _ _ hinfo ?_]
        · rw [ihv r hr g hg]
          rcases Nat.lt_or_ge r bo with hcl | hcl
          · rw [if_pos hcl, if_pos (by omega)]
          · rw [if_neg (by omega), if_neg (by omega)]
        · intro i hi g' hg' heq
          have := slot_inj hg hg' heq
          omega
/-- C1: Batch-kernel contract.  The kernel splits the `rowCount` rows into
`ceil(rowCount/64)` contiguous blocks that cover the range with no overlap and
no gap (their in-order concatenation is exactly `[0, rowCount)`, the last block
possibly shorter), and for every row `r` and group `g` the output slot
`(base_rowid + r) * numGroups + g` receives exactly once the leaf value of
every tree `t ∈ [tree_begin, tree_end)` assigned to group `g`, evaluated at
the feature vector filled from row `r`. -/
theorem batch_kernel_partition_and_accumulation (model : GBTreeModel)
    (batch : DataView) (init : List ℚ) (temp0 : List FVec) (tb te : Nat)
    (hslv : model.size_leaf_vector = 0)
    (hng : 0 < model.num_output_group)
    (hinfo : ∀ g ∈ model.tree_info, g < model.num_output_group)
    (htemp : 64 ≤ temp0.length)
    (hclean0 : ∀ f ∈ temp0, CleanVec model.num_feature f)
    (hfeat : ∀ row ∈ batch.rows, ∀ e ∈ row, e.index < model.num_feature)
    (hlen : (batch.base_rowid + batch.size) * model.num_output_group ≤
      init.length) :
    ∃ res : List ℚ × List FVec,
      PredictBatchByBlockOfRowsKernel 64 batch init model tb te temp0 =
        some res ∧
      batch.size / 64 + (if batch.size % 64 = 0 then 0 else 1) =
        (batch.size + 63) / 64 ∧
      (List.range (batch.size / 64 + if batch.size % 64 = 0 then 0 else 1)).flatMap
          (fun b => List.range' (b * 64) (min (batch.size - b * 64) 64)) =
        List.range batch.size ∧
      ∀ r, r < batch.size → ∀ g, g < model.num_output_group →
        res.1.getD ((batch.base_rowid + r) * model.num_output_group + g) 0 =
          init.getD ((batch.base_rowid + r) * model.num_output_group + g) 0 +
          ((List.range' tb (te - tb)).map fun t =>
            if model.tree_info.getD t 0 = g then
              PredValueByOneTree
                ((FVec.init model.num_feature).fill (batch.row r))
                (model.trees.getD t default)
            else 0).sum := by
  have hinfo' : ∀ t, model.tree_info.getD t 0 < model.num_output_group :=
    getD_lt_of_forall_mem hng hinfo
  refine ⟨_, kernel_eq_fold 64 batch init model tb te temp0 hslv, ?_, ?_, ?_⟩
  · simpa using n_row_blocks_eq_ceil batch.size 64 (by norm_num)
  · exact blocks_cover batch.size 64 (by norm_num)
  · intro r hr g hg
    have hspec := kernel_fold_spec model batch init temp0 tb te 64
      (batch.size / 64 + if batch.size % 64 = 0 then 0 else 1)
      (by norm_num) hng hinfo' htemp hclean0 hfeat hlen
    rw [hspec.2.2.2 r hr g hg, if_pos]
    · rfl
    · exact lt_of_lt_of_le hr (ceil_mul_ge batch.size 64 (by norm_num))

/-- Concrete inputs exercising the batch kernel: two stump trees in group 0,
one feature, three rows in a single block. -/
def wModel : GBTreeModel :=
  { trees := [⟨fun _ => 0, fun _ => 3/2, fun _ _ _ _ _ => 0, fun _ _ => 0⟩,
              ⟨fun _ => 1, fun _ => -1/2, fun _ _ _ _ _ => 0, fun _ _ => 0⟩]
    tree_info := [0, 0]
    num_output_group := 1
    num_feature := 1
    base_score := 1/10
    size_leaf_vector := 0 }

def wBatch : DataView := ⟨0, [[⟨0, 2⟩], [], [⟨0, 5⟩]]⟩

def wInit : List ℚ := [0, 0, 0]

def wTemp : List FVec := List.replicate 64 (FVec.init 0)

theorem batch_kernel_partition_and_accumulation_witness :
    (wModel.size_leaf_vector = 0 ∧ 0 < wModel.num_output_group ∧
     (∀ g ∈ wModel.tree_info, g < wModel.num_output_group) ∧
     64 ≤ wTemp.length ∧
     (∀ f ∈ wTemp, CleanVec wModel.num_feature f) ∧
     (∀ row ∈ wBatch.rows, ∀ e ∈ row, e.index < wModel.num_feature) ∧
     (wBatch.base_rowid + wBatch.size) * wModel.num_output_group ≤
       wInit.length) ∧
    (∃ res : List ℚ × List FVec,
      PredictBatchByBlockOfRowsKernel 64 wBatch wInit wModel 0 2 wTemp =
        some res ∧
      wBatch.size / 64 + (if wBatch.size % 64 = 0 then 0 else 1) =
        (wBatch.size + 63) / 64 ∧
      (List.range (wBatch.size / 64 + if wBatch.size % 64 = 0 then 0 else 1)).flatMap
          (fun b => List.range' (b * 64) (min (wBatch.size - b * 64) 64)) =
        List.range wBatch.size ∧
      ∀ r, r < wBatch.size → ∀ g, g < wModel.num_output_group →
        res.1.getD ((wBatch.base_rowid + r) * wModel.num_output_group + g) 0 =
          wInit.getD ((wBatch.base_rowid + r) * wModel.num_output_group + g) 0 +
          ((List.range' 0 (2 - 0)).map fun t =>
            if wModel.tree_info.getD t 0 = g then
              PredValueByOneTree
                ((FVec.init wModel.num_feature).fill (wBatch.row r))
                (wModel.trees.getD t default)
            else 0).sum) :=
  ⟨⟨rfl, by decide, by decide, by decide, by decide, by decide, by decide⟩,
   batch_kernel_partition_and_accumulation wModel wBatch wInit wTemp 0 2
     rfl (by decide) (by decide) (by decide) (by decide) (by decide)
     (by decide)⟩

/-- C5: Base-margin fallback in output initialization.  A base margin of
exactly the required length `numGroups * numRows` is copied verbatim with no
warning; any other non-empty length is ignored with a warning naming the
expected length, the whole buffer filled with the scalar base score; an empty
margin fills with the base score silently.  All three outcomes complete
(`some`, no crash). -/
theorem init_out_predictions_margin_fallback (num_row : Nat)
    (base_margin : List ℚ) (model : GBTreeModel)
    (hng : model.num_output_group ≠ 0) :
    (base_margin.length = model.num_output_group * num_row →
      InitOutPredictions num_row base_margin model = some (base_margin, none)) ∧
    (base_margin.length ≠ model.num_output_group * num_row →
      base_margin ≠ [] →
      InitOutPredictions num_row base_margin model =
        some (List.replicate (model.num_output_group * num_row)
          model.base_score, some (model.num_output_group * num_row))) ∧
    (base_margin = [] →
      base_margin.length ≠ model.num_output_group * num_row →
      InitOutPredictions num_row base_margin model =
        some (List.replicate (model.num_output_group * num_row)
          model.base_score, none)) := by
  unfold InitOutPredictions
  rw [if_neg hng]
  refine ⟨fun h => ?_, fun h hne => ?_, fun h hlen => ?_⟩
  · rw [if_pos h]
  · rw [if_neg h, if_pos hne]
  · rw [if_neg hlen, if_neg (by simp [h])]

theorem init_out_predictions_margin_fallback_witness :
    ((1 : Nat) ≠ 0 ∧ [(5 : ℚ)].length ≠ 1 * 2 ∧ [(5 : ℚ)] ≠ []) ∧
    InitOutPredictions 2 [(5 : ℚ)]
        { trees := [], tree_info := [], num_output_group := 1,
          num_feature := 0, base_score := 7/2, size_leaf_vector := 0 } =
      some (List.replicate 2 (7/2 : ℚ), some 2) :=
  ⟨⟨by decide, by decide, by decide⟩,
   (init_out_predictions_margin_fallback 2 [(5 : ℚ)]
      { trees := [], tree_info := [], num_output_group := 1,
        num_feature := 0, base_score := 7/2, size_leaf_vector := 0 }
      (by decide)).2.1 (by decide) (by decide)⟩

/-- C8: In-place predict declines unsupported adapters.  A runtime type tag
outside the four supported adapter kinds yields the "not handled" outcome
(`none`, i.e. `return false`) without raising an error; any of the four
supported kinds dispatches the prediction and returns `true` (`some` of the
dispatched call). -/
theorem inplace_predict_dispatch (m : Adapter) (base_margin : List ℚ)
    (model : GBTreeModel) (missing : ℚ) (tb te : Nat) :
    (m.tag = AdapterTag.other →
      InplacePredict m base_margin model missing tb te = none) ∧
    (m.tag ≠ AdapterTag.other →
      InplacePredict m base_margin model missing tb te =
        some (DispatchedInplacePredict m base_margin model missing tb te)) := by
  constructor
  · intro h
    unfold InplacePredict
    rw [h]
  · intro h
    unfold InplacePredict
    cases htag : m.tag
    · rfl
    · rfl
    · rfl
    · rfl
    · exact absurd htag h

theorem inplace_predict_dispatch_witness :
    ((Adapter.mk AdapterTag.other [] 0).tag = AdapterTag.other ∧
      InplacePredict (Adapter.mk AdapterTag.other [] 0) [] wModel 0 0 2 =
        none) ∧
    ((Adapter.mk AdapterTag.dense [] 0).tag ≠ AdapterTag.other ∧
      InplacePredict (Adapter.mk AdapterTag.dense [] 0) [] wModel 0 0 2 =
        some (DispatchedInplacePredict (Adapter.mk AdapterTag.dense [] 0) []
          wModel 0 0 2)) :=
  ⟨⟨rfl, (inplace_predict_dispatch (Adapter.mk AdapterTag.other [] 0) []
      wModel 0 0 2).1 rfl⟩,
   ⟨by decide, (inplace_predict_dispatch (Adapter.mk AdapterTag.dense [] 0) []
      wModel 0 0 2).2 (by decide)⟩⟩

/-- C9: In-place feature-count mismatch is fatal.  Whenever the adapter's
column count differs from the model's feature count, the dispatched in-place
prediction aborts with the error before producing any output (the result is
the bare error, carrying no partial predictions). -/
theorem inplace_feature_mismatch_fatal (m : Adapter) (base_margin : List ℚ)
    (model : GBTreeModel) (missing : ℚ) (tb te : Nat)
    (h : m.num_columns ≠ model.num_feature) :
    DispatchedInplacePredict m base_margin model missing tb te =
      Except.error
        "Number of columns in data must equal to trained model." := by
  unfold DispatchedInplacePredict
  rw [if_pos h]

theorem inplace_feature_mismatch_fatal_witness :
    (Adapter.mk AdapterTag.dense [] 3).num_columns ≠ wModel.num_feature ∧
    DispatchedInplacePredict (Adapter.mk AdapterTag.dense [] 3) [] wModel 0
        0 2 =
      Except.error
        "Number of columns in data must equal to trained model." :=
  ⟨by decide,
   inplace_feature_mismatch_fatal (Adapter.mk AdapterTag.dense [] 3) []
     wModel 0 0 2 (by decide)⟩

/-! ## Flat-buffer indexing helpers -/

lemma getD_map_range {α : Type} (K : Nat) (f : Nat → α) (j : Nat) (d : α)
    (hj : j < K) : ((List.range K).map f).getD j d = f j := by
  simp [List.getD_eq_getElem?_getD, List.getElem?_map, List.getElem?_range hj]

lemma index_lt {a b s L : Nat} (ha : a < b) (hs : s < L) :
    a * L + s < b * L := by
  have h2 : a * L + L = (a + 1) * L := by ring
  have h3 : (a + 1) * L ≤ b * L := Nat.mul_le_mul_right L ha
  omega

lemma flatMap_range_length {α : Type} (n : Nat) (f : Nat → List α) (L : Nat)
    (h : ∀ i, (f i).length = L) : ((List.range n).flatMap f).length = n * L := by
  induction n with
  | zero => simp
  | succ m ih =>
    rw [List.range_succ, List.flatMap_append, List.length_append, ih,
      List.flatMap_cons, List.flatMap_nil, List.append_nil, h m]
    ring

lemma flatMap_range_getD {α : Type} (n : Nat) (f : Nat → List α) (L : Nat)
    (d : α) (h : ∀ i, (f i).length = L) (q s : Nat) (hs : s < L) (hq : q < n) :
    ((List.range n).flatMap f).getD (q * L + s) d = (f q).getD s d := by
  induction n with
  | zero => omega
  | succ m ih =>
    rw [List.range_succ, List.flatMap_append, List.flatMap_cons,
      List.flatMap_nil, List.append_nil]
    rcases Nat.lt_or_ge q m with hq' | hq'
    · rw [List.getD_eq_getElem?_getD, List.getElem?_append_left
        (by rw [flatMap_range_length m f L h]; exact index_lt hq' hs),
        ← List.getD_eq_getElem?_getD]
      exact ih hq'
    · have hqm : q = m := by omega
      subst hqm
      rw [List.getD_eq_getElem?_getD, List.getElem?_append_right
        (by rw [flatMap_range_length q f L h]; exact Nat.le_add_right _ _),
        flatMap_range_length q f L h,
        show q * L + s - q * L = s by omega, ← List.getD_eq_getElem?_getD]

/-- C10: Single-row predict interprets its tree limit per output group.  For a
nonzero limit `n` the trees used are exactly `[0, min(n * numGroups,
numTrees))` — the limit is multiplied by the group count and then capped at the
tree count — and for `n = 0` all trees are used.  Slot `gid` of the output is
the group-`gid` leaf-value sum over that range plus the base score. -/
theorem predict_instance_group_scaled_limit (inst : Inst) (model : GBTreeModel)
    (hng : 0 < model.num_output_group) :
    (∀ n, 0 < n → ∀ gid, gid < model.num_output_group →
      (PredictInstance inst model n).getD gid 0 =
        PredValue inst model.trees model.tree_info gid
          (FVec.init model.num_feature) 0
          (min (n * model.num_output_group) model.trees.length) +
          model.base_score) ∧
    (∀ gid, gid < model.num_output_group →
      (PredictInstance inst model 0).getD gid 0 =
        PredValue inst model.trees model.tree_info gid
          (FVec.init model.num_feature) 0 model.trees.length +
          model.base_score) := by
  constructor
  · intro n hn gid hgid
    have hK : gid < model.num_output_group * (model.size_leaf_vector + 1) :=
      lt_of_lt_of_le hgid (Nat.le_mul_of_pos_right _ (by omega))
    have hpos : 0 < n * model.num_output_group := Nat.mul_pos hn hng
    simp only [PredictInstance]
    rw [getD_map_range _ _ _ _ hK, if_pos hgid]
    by_cases hcap : model.trees.length < n * model.num_output_group
    · rw [if_pos (Or.inr hcap), Nat.min_eq_right (le_of_lt hcap)]
    · rw [if_neg (by omega), Nat.min_eq_left (by omega)]
  · intro gid hgid
    have hK : gid < model.num_output_group * (model.size_leaf_vector + 1) :=
      lt_of_lt_of_le hgid (Nat.le_mul_of_pos_right _ (by omega))
    simp only [PredictInstance]
    rw [getD_map_range _ _ _ _ hK, if_pos hgid]
    simp

theorem predict_instance_group_scaled_limit_witness :
    (0 < wModel.num_output_group ∧ (0 : Nat) < 1) ∧
    (PredictInstance [⟨0, 2⟩] wModel 1).getD 0 0 =
      PredValue [⟨0, 2⟩] wModel.trees wModel.tree_info 0
        (FVec.init wModel.num_feature) 0
        (min (1 * wModel.num_output_group) wModel.trees.length) +
        wModel.base_score ∧
    (PredictInstance [⟨0, 2⟩] wModel 0).getD 0 0 =
      PredValue [⟨0, 2⟩] wModel.trees wModel.tree_info 0
        (FVec.init wModel.num_feature) 0 wModel.trees.length +
        wModel.base_score :=
  ⟨⟨by decide, by decide⟩,
   (predict_instance_group_scaled_limit [⟨0, 2⟩] wModel (by decide)).1 1
     (by decide) 0 (by decide),
   (predict_instance_group_scaled_limit [⟨0, 2⟩] wModel (by decide)).2 0
     (by decide)⟩

/-- C7: Leaf-index tree-limit equivalence.  `treeLimit = 0` produces exactly
the same output as `treeLimit = numTrees`; a limit above the tree count is
likewise clamped to `numTrees`; the output has `numRows * effectiveLimit`
cells; and the limit is an absolute tree count — it does not depend on the
number of output groups. -/
theorem predict_leaf_tree_limit (rows : List Inst) (model : GBTreeModel) :
    PredictLeaf rows model 0 = PredictLeaf rows model model.trees.length ∧
    (∀ L, model.trees.length < L →
      PredictLeaf rows model L = PredictLeaf rows model model.trees.length) ∧
    (∀ L, (PredictLeaf rows model L).length =
      rows.length *
        (if L = 0 ∨ model.trees.length < L then model.trees.length else L)) ∧
    (∀ g L, PredictLeaf rows { model with num_output_group := g } L =
      PredictLeaf rows model L) := by
  refine ⟨by simp [PredictLeaf], fun L h => ?_, fun L => ?_, fun g L => rfl⟩
  · simp only [PredictLeaf]
    rw [if_pos (Or.inr h), ite_self]
  · simp only [PredictLeaf]
    exact flatMap_range_length _ _ _ fun i => by simp

def wRows : List Inst := [[⟨0, 2⟩]]

theorem predict_leaf_tree_limit_witness :
    (PredictLeaf wRows wModel 0 =
      PredictLeaf wRows wModel wModel.trees.length) ∧
    (wModel.trees.length < 5 ∧
      PredictLeaf wRows wModel 5 =
        PredictLeaf wRows wModel wModel.trees.length) ∧
    (PredictLeaf wRows wModel 1).length =
      wRows.length *
        (if 1 = 0 ∨ wModel.trees.length < 1 then wModel.trees.length else 1) ∧
    PredictLeaf wRows { wModel with num_output_group := 7 } 1 =
      PredictLeaf wRows wModel 1 :=
  ⟨(predict_leaf_tree_limit wRows wModel).1,
   ⟨by decide, (predict_leaf_tree_limit wRows wModel).2.1 5 (by decide)⟩,
   (predict_leaf_tree_limit wRows wModel).2.2.1 1,
   (predict_leaf_tree_limit wRows wModel).2.2.2 7 1⟩

/-! ## Contribution buffers, chunk by chunk -/

lemma contribAccum_length (model : GBTreeModel) (nt : Nat)
    (tw : Option (List ℚ)) (approx : Bool) (gi : Option (List Int))
    (condition : Int) (cf ncols gid : Nat) (feats : FVec) :
    (contribAccum model nt tw approx gi condition cf ncols gid feats).length =
      ncols := by
  unfold contribAccum
  generalize List.range nt = ts
  suffices h : ∀ acc : List ℚ, acc.length = ncols →
      (ts.foldl (fun acc j =>
        if model.tree_info.getD j 0 = gid then
          (List.range ncols).map fun ci =>
            acc.getD ci 0 +
              (if approx then
                (model.trees.getD j default).calcContribsApprox feats ci
               else
                (model.trees.getD j default).calcContribs feats gi condition
                  cf ci) *
              (match tw with
                | none => 1
                | some ws => ws.getD j 0)
        else acc) acc).length = ncols by
    exact h _ (by simp)
  induction ts with
  | nil => intro acc h; exact h
  | cons t ts ih =>
    intro acc h
    rw [List.foldl_cons]
    apply ih
    by_cases hc : model.tree_info.getD t 0 = gid
    · rw [if_pos hc, List.length_map, List.length_range]
    · rw [if_neg hc]
      exact h

lemma PredictContribution_length (rows : List Inst) (base_margin : List ℚ)
    (model : GBTreeModel) (ntree_limit : Nat) (tw : Option (List ℚ))
    (approx : Bool) (gi : Option (List Int)) (condition : Int) (cf : Nat) :
    (PredictContribution rows base_margin model ntree_limit tw approx gi
        condition cf).length =
      rows.length *
        (model.num_output_group * (selectedFeatures model gi + 1)) := by
  unfold PredictContribution
  refine flatMap_range_length _ _ _ fun r => ?_
  refine flatMap_range_length _ _ _ fun gid => ?_
  rw [addAt_length, contribAccum_length]

lemma PredictContribution_getD (rows : List Inst) (base_margin : List ℚ)
    (model : GBTreeModel) (ntree_limit : Nat) (tw : Option (List ℚ))
    (approx : Bool) (gi : Option (List Int)) (condition : Int) (cf : Nat)
    (r gid ci : Nat) (hr : r < rows.length)
    (hg : gid < model.num_output_group)
    (hc : ci < selectedFeatures model gi + 1) :
    (PredictContribution rows base_margin model ntree_limit tw approx gi
        condition cf).getD
      ((r * model.num_output_group + gid) * (selectedFeatures model gi + 1) +
        ci) 0 =
    (addAt (contribAccum model
        (if ntree_limit = 0 ∨ model.trees.length < ntree_limit then
          model.trees.length else ntree_limit)
        tw approx gi condition cf (selectedFeatures model gi + 1) gid
        ((FVec.init model.num_feature).fill (rows.getD r [])))
      (selectedFeatures model gi + 1 - 1)
      (if base_margin ≠ [] then
        base_margin.getD (r * model.num_output_group + gid) 0
       else model.base_score)).getD ci 0 := by
  have hidx : (r * model.num_output_group + gid) *
      (selectedFeatures model gi + 1) + ci =
      r * (model.num_output_group * (selectedFeatures model gi + 1)) +
      (gid * (selectedFeatures model gi + 1) + ci) := by ring
  unfold PredictContribution
  rw [hidx,
    flatMap_range_getD _ _ _ _
      (fun r' => flatMap_range_length _ _ _ fun gid' => by
        rw [addAt_length, contribAccum_length])
      _ _ (index_lt hg hc) hr,
    flatMap_range_getD _ _ _ _
      (fun gid' => by rw [addAt_length, contribAccum_length]) _ _ hc hg]

/-- C4 counterexample.  Model: no trees, one output group, zero features,
base score 0; two rows; supplied base margin `[5]` — non-empty but NOT
correctly sized (required length is `numRows * numGroups = 2`).  The claim
requires the bias slot of row 0 to receive the scalar base score 0; the code
checks only non-emptiness and adds the margin entry 5. -/
theorem contribution_bias_size_unchecked_cex :
    ¬ ((PredictContribution [[], []] [5]
        { trees := [], tree_info := [], num_output_group := 1,
          num_feature := 0, base_score := 0, size_leaf_vector := 0 }
        0 none false none 0 0).getD 0 0 =
      ({ trees := [], tree_info := [], num_output_group := 1,
          num_feature := 0, base_score := 0, size_leaf_vector := 0 } :
        GBTreeModel).base_score) := by
  norm_num [PredictContribution, contribAccum, addAt, selectedFeatures,
    FVec.fill, FVec.init, List.range_succ]

/-- C4 (amended): Contribution bias term.  After accumulating the
(optionally per-tree-weighted) tree attribution vectors, the bias slot of each
(row, group) chunk receives the per-row base-margin entry whenever the
supplied base margin is non-empty — its size is NOT validated here — and the
model's scalar base score only when no base margin was supplied. -/
theorem contribution_bias_term (rows : List Inst) (base_margin : List ℚ)
    (model : GBTreeModel) (ntree_limit : Nat) (tw : Option (List ℚ))
    (approx : Bool) (gi : Option (List Int)) (condition : Int) (cf : Nat)
    (r gid : Nat) (hr : r < rows.length)
    (hg : gid < model.num_output_group) :
    (PredictContribution rows base_margin model ntree_limit tw approx gi
        condition cf).getD
      ((r * model.num_output_group + gid) * (selectedFeatures model gi + 1) +
        (selectedFeatures model gi + 1 - 1)) 0 =
    (contribAccum model
        (if ntree_limit = 0 ∨ model.trees.length < ntree_limit then
          model.trees.length else ntree_limit)
        tw approx gi condition cf (selectedFeatures model gi + 1) gid
        ((FVec.init model.num_feature).fill (rows.getD r []))).getD
      (selectedFeatures model gi + 1 - 1) 0 +
    (if base_margin ≠ [] then
      base_margin.getD (r * model.num_output_group + gid) 0
     else model.base_score) := by
  rw [PredictContribution_getD rows base_margin model ntree_limit tw approx gi
    condition cf r gid _ hr hg (by omega),
    addAt_getD_self _ _ _ (by rw [contribAccum_length]; omega)]

theorem contribution_bias_term_witness :
    ((0 : Nat) < [[], ([⟨0, 2⟩] : Inst)].length ∧
      (0 : Nat) < wModel.num_output_group) ∧
    (PredictContribution [[], [⟨0, 2⟩]] [] wModel 0 none false none 0 0).getD
      ((1 * wModel.num_output_group + 0) * (selectedFeatures wModel none + 1) +
        (selectedFeatures wModel none + 1 - 1)) 0 =
    (contribAccum wModel
        (if (0 : Nat) = 0 ∨ wModel.trees.length < 0 then
          wModel.trees.length else 0)
        none false none 0 0 (selectedFeatures wModel none + 1) 0
        ((FVec.init wModel.num_feature).fill
          ([[], [⟨0, 2⟩]].getD 1 []))).getD
      (selectedFeatures wModel none + 1 - 1) 0 +
    (if ([] : List ℚ) ≠ [] then ([] : List ℚ).getD
        (1 * wModel.num_output_group + 0) 0
     else wModel.base_score) :=
  ⟨⟨by decide, by decide⟩,
   contribution_bias_term [[], [⟨0, 2⟩]] [] wModel 0 none false none 0 0 1 0
     (by decide) (by decide)⟩

/-! ## Interaction-contribution composition -/

lemma interactionRow_length (diagv : ℚ) (onv offv : Nat → ℚ) (m i : Nat) :
    (interactionRow diagv onv offv m i).length = m := by
  unfold interactionRow
  rw [List.length_map, List.length_range]

lemma interactionDiag_eq (diagv : ℚ) (onv offv : Nat → ℚ) (m i : Nat) :
    interactionDiag diagv onv offv m i =
      (if i < m then diagv else 0) -
        ∑ k ∈ Finset.range m, (if k = i then 0 else (onv k - offv k) / 2) := by
  unfold interactionDiag
  induction m with
  | zero => simp
  | succ p ih =>
    rw [List.range_succ, List.foldl_append, List.foldl_cons, List.foldl_nil,
      ih, Finset.sum_range_succ]
    by_cases hp : p = i
    · subst hp
      rw [if_pos rfl, if_neg (lt_irrefl p), if_pos (Nat.lt_succ_self p),
        if_pos rfl]
      ring
    · rw [if_neg hp, if_neg hp]
      by_cases hip : i < p
      · rw [if_pos hip, if_pos (by omega)]
        ring
      · rw [if_neg hip, if_neg (by omega)]
        ring

lemma interactionRow_getD (diagv : ℚ) (onv offv : Nat → ℚ) (m i k : Nat)
    (hk : k < m) :
    (interactionRow diagv onv offv m i).getD k 0 =
      if k = i then interactionDiag diagv onv offv m i
      else (onv k - offv k) / 2 := by
  unfold interactionRow
  exact getD_map_range _ _ _ _ hk

/-- The interaction buffer, cell by cell: cell
`(j, l, i, k)` of the flat layout is cell `k` of the composed row `i` for
(row `j`, group `l`), built from the three contribution passes. -/
lemma interaction_getD (rows : List Inst) (base_margin : List ℚ)
    (model : GBTreeModel) (ntree_limit : Nat) (tw : Option (List ℚ))
    (approx : Bool) (gi : Option (List Int)) (j l i k : Nat)
    (hj : j < rows.length) (hl : l < model.num_output_group)
    (hi : i < selectedFeatures model gi + 1)
    (hk : k < selectedFeatures model gi + 1) :
    (PredictInteractionContributions rows base_margin model ntree_limit tw
        approx gi).getD
      (j * (model.num_output_group *
          ((selectedFeatures model gi + 1) * (selectedFeatures model gi + 1))) +
        l * ((selectedFeatures model gi + 1) * (selectedFeatures model gi + 1)) +
        i * (selectedFeatures model gi + 1) + k) 0 =
    (interactionRow
      ((PredictContribution rows base_margin model ntree_limit tw approx gi
          0 0).getD
        (j * (model.num_output_group * (selectedFeatures model gi + 1)) +
          l * (selectedFeatures model gi + 1) + i) 0)
      (fun k' => (PredictContribution rows base_margin model ntree_limit tw
          approx gi 1 i).getD
        (j * (model.num_output_group * (selectedFeatures model gi + 1)) +
          l * (selectedFeatures model gi + 1) + k') 0)
      (fun k' => (PredictContribution rows base_margin model ntree_limit tw
          approx gi (-1) i).getD
        (j * (model.num_output_group * (selectedFeatures model gi + 1)) +
          l * (selectedFeatures model gi + 1) + k') 0)
      (selectedFeatures model gi + 1) i).getD k 0 := by
  have hidx : j * (model.num_output_group *
      ((selectedFeatures model gi + 1) * (selectedFeatures model gi + 1))) +
      l * ((selectedFeatures model gi + 1) * (selectedFeatures model gi + 1)) +
      i * (selectedFeatures model gi + 1) + k =
      j * (model.num_output_group *
        ((selectedFeatures model gi + 1) * (selectedFeatures model gi + 1))) +
      (l * ((selectedFeatures model gi + 1) * (selectedFeatures model gi + 1)) +
        (i * (selectedFeatures model gi + 1) + k)) := by ring
  unfold PredictInteractionContributions
  rw [hidx,
    flatMap_range_getD _ _ _ _
      (fun j' => flatMap_range_length _ _ _ fun l' =>
        flatMap_range_length _ _ _ fun i' => interactionRow_length ..)
      _ _ (index_lt hl (index_lt hi hk)) hj,
    flatMap_range_getD _ _ _ _
      (fun l' => flatMap_range_length _ _ _ fun i' => interactionRow_length ..)
      _ _ (index_lt hi hk) hl,
    flatMap_range_getD _ _ _ _ (fun i' => interactionRow_length ..) _ _ hk hi]

/-- Off-diagonal composed value: `(on[i][k] - off[i][k]) / 2`. -/
lemma interaction_offdiag_value (rows : List Inst) (base_margin : List ℚ)
    (model : GBTreeModel) (ntree_limit : Nat) (tw : Option (List ℚ))
    (approx : Bool) (gi : Option (List Int)) (j l i k : Nat)
    (hj : j < rows.length) (hl : l < model.num_output_group)
    (hi : i < selectedFeatures model gi + 1)
    (hk : k < selectedFeatures model gi + 1) (hki : k ≠ i) :
    (PredictInteractionContributions rows base_margin model ntree_limit tw
        approx gi).getD
      (j * (model.num_output_group *
          ((selectedFeatures model gi + 1) * (selectedFeatures model gi + 1))) +
        l * ((selectedFeatures model gi + 1) * (selectedFeatures model gi + 1)) +
        i * (selectedFeatures model gi + 1) + k) 0 =
    ((PredictContribution rows base_margin model ntree_limit tw approx gi
        1 i).getD
      (j * (model.num_output_group * (selectedFeatures model gi + 1)) +
        l * (selectedFeatures model gi + 1) + k) 0 -
     (PredictContribution rows base_margin model ntree_limit tw approx gi
        (-1) i).getD
      (j * (model.num_output_group * (selectedFeatures model gi + 1)) +
        l * (selectedFeatures model gi + 1) + k) 0) / 2 := by
  rw [interaction_getD rows base_margin model ntree_limit tw approx gi j l i k
    hj hl hi hk, interactionRow_getD _ _ _ _ _ _ hk, if_neg hki]

/-- Diagonal composed value, raw form: the baseline attribution for `i` minus
the sum of the pass differences over the other columns. -/
lemma interaction_diag_value (rows : List Inst) (base_margin : List ℚ)
    (model : GBTreeModel) (ntree_limit : Nat) (tw : Option (List ℚ))
    (approx : Bool) (gi : Option (List Int)) (j l i : Nat)
    (hj : j < rows.length) (hl : l < model.num_output_group)
    (hi : i < selectedFeatures model gi + 1) :
    (PredictInteractionContributions rows base_margin model ntree_limit tw
        approx gi).getD
      (j * (model.num_output_group *
          ((selectedFeatures model gi + 1) * (selectedFeatures model gi + 1))) +
        l * ((selectedFeatures model gi + 1) * (selectedFeatures model gi + 1)) +
        i * (selectedFeatures model gi + 1) + i) 0 =
    (PredictContribution rows base_margin model ntree_limit tw approx gi
        0 0).getD
      (j * (model.num_output_group * (selectedFeatures model gi + 1)) +
        l * (selectedFeatures model gi + 1) + i) 0 -
    ∑ k ∈ Finset.range (selectedFeatures model gi + 1),
      (if k = i then 0 else
        ((PredictContribution rows base_margin model ntree_limit tw approx gi
            1 i).getD
          (j * (model.num_output_group * (selectedFeatures model gi + 1)) +
            l * (selectedFeatures model gi + 1) + k) 0 -
         (PredictContribution rows base_margin model ntree_limit tw approx gi
            (-1) i).getD
          (j * (model.num_output_group * (selectedFeatures model gi + 1)) +
            l * (selectedFeatures model gi + 1) + k) 0) / 2) := by
  rw [interaction_getD rows base_margin model ntree_limit tw approx gi j l i i
    hj hl hi hi, interactionRow_getD _ _ _ _ _ _ hi, if_pos rfl,
    interactionDiag_eq, if_pos hi]

/-- C2: Interaction-contribution composition.  For every row `j`, group `l`,
conditioning feature `i` (virtual bias index included) and every other column
`k ≠ i`, the stored interaction value at `(i, k)` is
`(on-conditioned contribution for k - off-conditioned contribution for k) / 2`,
and the diagonal value at `(i, i)` is the baseline (unconditioned)
contribution for `i` minus the sum of all off-diagonal interaction values of
matrix row `i`. -/
theorem interaction_composition_rule (rows : List Inst) (base_margin : List ℚ)
    (model : GBTreeModel) (ntree_limit : Nat) (tw : Option (List ℚ))
    (approx : Bool) (gi : Option (List Int)) (j l i : Nat)
    (hj : j < rows.length) (hl : l < model.num_output_group)
    (hi : i < selectedFeatures model gi + 1) :
    (∀ k, k < selectedFeatures model gi + 1 → k ≠ i →
      (PredictInteractionContributions rows base_margin model ntree_limit tw
          approx gi).getD
        (j * (model.num_output_group *
            ((selectedFeatures model gi + 1) * (selectedFeatures model gi + 1))) +
          l * ((selectedFeatures model gi + 1) * (selectedFeatures model gi + 1)) +
          i * (selectedFeatures model gi + 1) + k) 0 =
      ((PredictContribution rows base_margin model ntree_limit tw approx gi
          1 i).getD
        (j * (model.num_output_group * (selectedFeatures model gi + 1)) +
          l * (selectedFeatures model gi + 1) + k) 0 -
       (PredictContribution rows base_margin model ntree_limit tw approx gi
          (-1) i).getD
        (j * (model.num_output_group * (selectedFeatures model gi + 1)) +
          l * (selectedFeatures model gi + 1) + k) 0) / 2) ∧
    (PredictInteractionContributions rows base_margin model ntree_limit tw
        approx gi).getD
      (j * (model.num_output_group *
          ((selectedFeatures model gi + 1) * (selectedFeatures model gi + 1))) +
        l * ((selectedFeatures model gi + 1) * (selectedFeatures model gi + 1)) +
        i * (selectedFeatures model gi + 1) + i) 0 =
    (PredictContribution rows base_margin model ntree_limit tw approx gi
        0 0).getD
      (j * (model.num_output_group * (selectedFeatures model gi + 1)) +
        l * (selectedFeatures model gi + 1) + i) 0 -
    ∑ k ∈ Finset.range (selectedFeatures model gi + 1),
      (if k = i then 0 else
        (PredictInteractionContributions rows base_margin model ntree_limit tw
            approx gi).getD
          (j * (model.num_output_group *
              ((selectedFeatures model gi + 1) *
                (selectedFeatures model gi + 1))) +
            l * ((selectedFeatures model gi + 1) *
              (selectedFeatures model gi + 1)) +
            i * (selectedFeatures model gi + 1) + k) 0) := by
  refine ⟨fun k hk hki => interaction_offdiag_value rows base_margin model
    ntree_limit tw approx gi j l i k hj hl hi hk hki, ?_⟩
  rw [interaction_diag_value rows base_margin model ntree_limit tw approx gi
    j l i hj hl hi]
  congr 1
  refine Finset.sum_congr rfl fun k hk => ?_
  by_cases hki : k = i
  · rw [if_pos hki, if_pos hki]
  · rw [if_neg hki, if_neg hki,
      interaction_offdiag_value rows base_margin model ntree_limit tw approx
        gi j l i k hj hl hi (Finset.mem_range.mp hk) hki]

theorem interaction_composition_rule_witness :
    ((0 : Nat) < wRows.length ∧ (0 : Nat) < wModel.num_output_group ∧
      (0 : Nat) < selectedFeatures wModel none + 1) ∧
    ((∀ k, k < selectedFeatures wModel none + 1 → k ≠ 0 →
      (PredictInteractionContributions wRows [] wModel 0 none false none).getD
        (0 * (wModel.num_output_group *
            ((selectedFeatures wModel none + 1) *
              (selectedFeatures wModel none + 1))) +
          0 * ((selectedFeatures wModel none + 1) *
            (selectedFeatures wModel none + 1)) +
          0 * (selectedFeatures wModel none + 1) + k) 0 =
      ((PredictContribution wRows [] wModel 0 none false none 1 0).getD
        (0 * (wModel.num_output_group * (selectedFeatures wModel none + 1)) +
          0 * (selectedFeatures wModel none + 1) + k) 0 -
       (PredictContribution wRows [] wModel 0 none false none (-1) 0).getD
        (0 * (wModel.num_output_group * (selectedFeatures wModel none + 1)) +
          0 * (selectedFeatures wModel none + 1) + k) 0) / 2) ∧
    (PredictInteractionContributions wRows [] wModel 0 none false none).getD
      (0 * (wModel.num_output_group *
          ((selectedFeatures wModel none + 1) *
            (selectedFeatures wModel none + 1))) +
        0 * ((selectedFeatures wModel none + 1) *
          (selectedFeatures wModel none + 1)) +
        0 * (selectedFeatures wModel none + 1) + 0) 0 =
    (PredictContribution wRows [] wModel 0 none false none 0 0).getD
      (0 * (wModel.num_output_group * (selectedFeatures wModel none + 1)) +
        0 * (selectedFeatures wModel none + 1) + 0) 0 -
    ∑ k ∈ Finset.range (selectedFeatures wModel none + 1),
      (if k = 0 then 0 else
        (PredictInteractionContributions wRows [] wModel 0 none false
            none).getD
          (0 * (wModel.num_output_group *
              ((selectedFeatures wModel none + 1) *
                (selectedFeatures wModel none + 1))) +
            0 * ((selectedFeatures wModel none + 1) *
              (selectedFeatures wModel none + 1)) +
            0 * (selectedFeatures wModel none + 1) + k) 0)) :=
  ⟨⟨by decide, by decide, by decide⟩,
   interaction_composition_rule wRows [] wModel 0 none false none 0 0 0
     (by decide) (by decide) (by decide)⟩

/-- C3: Interaction-matrix sum.  For every row and output group, each
conditioning row `i` of the interaction matrix (diagonal included) sums to the
baseline single-feature attribution for `i`, and the sum over all `(i, k)`
pairs equals the total single-feature contribution for that row and group
(the sum of the baseline contribution chunk). -/
theorem interaction_matrix_sums (rows : List Inst) (base_margin : List ℚ)
    (model : GBTreeModel) (ntree_limit : Nat) (tw : Option (List ℚ))
    (approx : Bool) (gi : Option (List Int)) (j l : Nat)
    (hj : j < rows.length) (hl : l < model.num_output_group) :
    (∀ i, i < selectedFeatures model gi + 1 →
      ∑ k ∈ Finset.range (selectedFeatures model gi + 1),
        (PredictInteractionContributions rows base_margin model ntree_limit tw
            approx gi).getD
          (j * (model.num_output_group *
              ((selectedFeatures model gi + 1) *
                (selectedFeatures model gi + 1))) +
            l * ((selectedFeatures model gi + 1) *
              (selectedFeatures model gi + 1)) +
            i * (selectedFeatures model gi + 1) + k) 0 =
      (PredictContribution rows base_margin model ntree_limit tw approx gi
          0 0).getD
        (j * (model.num_output_group * (selectedFeatures model gi + 1)) +
          l * (selectedFeatures model gi + 1) + i) 0) ∧
    ∑ i ∈ Finset.range (selectedFeatures model gi + 1),
      ∑ k ∈ Finset.range (selectedFeatures model gi + 1),
        (PredictInteractionContributions rows base_margin model ntree_limit tw
            approx gi).getD
          (j * (model.num_output_group *
              ((selectedFeatures model gi + 1) *
                (selectedFeatures model gi + 1))) +
            l * ((selectedFeatures model gi + 1) *
              (selectedFeatures model gi + 1)) +
            i * (selectedFeatures model gi + 1) + k) 0 =
    ∑ k ∈ Finset.range (selectedFeatures model gi + 1),
      (PredictContribution rows base_margin model ntree_limit tw approx gi
          0 0).getD
        (j * (model.num_output_group * (selectedFeatures model gi + 1)) +
          l * (selectedFeatures model gi + 1) + k) 0 := by
  have hrow : ∀ i, i < selectedFeatures model gi + 1 →
      ∑ k ∈ Finset.range (selectedFeatures model gi + 1),
        (PredictInteractionContributions rows base_margin model ntree_limit tw
            approx gi).getD
          (j * (model.num_output_group *
              ((selectedFeatures model gi + 1) *
                (selectedFeatures model gi + 1))) +
            l * ((selectedFeatures model gi + 1) *
              (selectedFeatures model gi + 1)) +
            i * (selectedFeatures model gi + 1) + k) 0 =
      (PredictContribution rows base_margin model ntree_limit tw approx gi
          0 0).getD
        (j * (model.num_output_group * (selectedFeatures model gi + 1)) +
          l * (selectedFeatures model gi + 1) + i) 0 := by
    intro i hi
    have hval : ∀ k ∈ Finset.range (selectedFeatures model gi + 1),
        (PredictInteractionContributions rows base_margin model ntree_limit tw
            approx gi).getD
          (j * (model.num_output_group *
              ((selectedFeatures model gi + 1) *
                (selectedFeatures model gi + 1))) +
            l * ((selectedFeatures model gi + 1) *
              (selectedFeatures model gi + 1)) +
            i * (selectedFeatures model gi + 1) + k) 0 =
        (if k = i then
          ((PredictContribution rows base_margin model ntree_limit tw approx
              gi 0 0).getD
            (j * (model.num_output_group * (selectedFeatures model gi + 1)) +
              l * (selectedFeatures model gi + 1) + i) 0 -
          ∑ k' ∈ Finset.range (selectedFeatures model gi + 1),
            (if k' = i then 0 else
              ((PredictContribution rows base_margin model ntree_limit tw
                  approx gi 1 i).getD
                (j * (model.num_output_group *
                    (selectedFeatures model gi + 1)) +
                  l * (selectedFeatures model gi + 1) + k') 0 -
               (PredictContribution rows base_margin model ntree_limit tw
                  approx gi (-1) i).getD
                (j * (model.num_output_group *
                    (selectedFeatures model gi + 1)) +
                  l * (selectedFeatures model gi + 1) + k') 0) / 2))
         else
          ((PredictContribution rows base_margin model ntree_limit tw approx
              gi 1 i).getD
            (j * (model.num_output_group * (selectedFeatures model gi + 1)) +
              l * (selectedFeatures model gi + 1) + k) 0 -
           (PredictContribution rows base_margin model ntree_limit tw approx
              gi (-1) i).getD
            (j * (model.num_output_group * (selectedFeatures model gi + 1)) +
              l * (selectedFeatures model gi + 1) + k) 0) / 2) := by
      intro k hk
      by_cases hki : k = i
      · subst hki
        rw [if_pos rfl]
        exact interaction_diag_value rows base_margin model ntree_limit tw
          approx gi j l k hj hl hi
      · rw [if_neg hki]
        exact interaction_offdiag_value rows base_margin model ntree_limit tw
          approx gi j l i k hj hl hi (Finset.mem_range.mp hk) hki
    rw [Finset.sum_congr rfl hval]
    rw [Finset.sum_congr rfl (g := fun k =>
        (if k = i then
          ((PredictContribution rows base_margin model ntree_limit tw approx
              gi 0 0).getD
            (j * (model.num_output_group * (selectedFeatures model gi + 1)) +
              l * (selectedFeatures model gi + 1) + i) 0 -
          ∑ k' ∈ Finset.range (selectedFeatures model gi + 1),
            (if k' = i then 0 else
              ((PredictContribution rows base_margin model ntree_limit tw
                  approx gi 1 i).getD
                (j * (model.num_output_group *
                    (selectedFeatures model gi + 1)) +
                  l * (selectedFeatures model gi + 1) + k') 0 -
               (PredictContribution rows base_margin model ntree_limit tw
                  approx gi (-1) i).getD
                (j * (model.num_output_group *
                    (selectedFeatures model gi + 1)) +
                  l * (selectedFeatures model gi + 1) + k') 0) / 2))
         else 0) +
        (if k = i then 0 else
          ((PredictContribution rows base_margin model ntree_limit tw approx
              gi 1 i).getD
            (j * (model.num_output_group * (selectedFeatures model gi + 1)) +
              l * (selectedFeatures model gi + 1) + k) 0 -
           (PredictContribution rows base_margin model ntree_limit tw approx
              gi (-1) i).getD
            (j * (model.num_output_group * (selectedFeatures model gi + 1)) +
              l * (selectedFeatures model gi + 1) + k) 0) / 2))
      (fun k _ => by by_cases hki : k = i <;> simp [hki])]
    rw [Finset.sum_add_distrib, Finset.sum_ite_eq',
      if_pos (Finset.mem_range.mpr hi)]
    ring
  refine ⟨hrow, ?_⟩
  exact Finset.sum_congr rfl fun i hi => hrow i (Finset.mem_range.mp hi)

theorem interaction_matrix_sums_witness :
    ((0 : Nat) < wRows.length ∧ (0 : Nat) < wModel.num_output_group) ∧
    ((∀ i, i < selectedFeatures wModel none + 1 →
      ∑ k ∈ Finset.range (selectedFeatures wModel none + 1),
        (PredictInteractionContributions wRows [] wModel 0 none false
            none).getD
          (0 * (wModel.num_output_group *
              ((selectedFeatures wModel none + 1) *
                (selectedFeatures wModel none + 1))) +
            0 * ((selectedFeatures wModel none + 1) *
              (selectedFeatures wModel none + 1)) +
            i * (selectedFeatures wModel none + 1) + k) 0 =
      (PredictContribution wRows [] wModel 0 none false none 0 0).getD
        (0 * (wModel.num_output_group * (selectedFeatures wModel none + 1)) +
          0 * (selectedFeatures wModel none + 1) + i) 0) ∧
    ∑ i ∈ Finset.range (selectedFeatures wModel none + 1),
      ∑ k ∈ Finset.range (selectedFeatures wModel none + 1),
        (PredictInteractionContributions wRows [] wModel 0 none false
            none).getD
          (0 * (wModel.num_output_group *
              ((selectedFeatures wModel none + 1) *
                (selectedFeatures wModel none + 1))) +
            0 * ((selectedFeatures wModel none + 1) *
              (selectedFeatures wModel none + 1)) +
            i * (selectedFeatures wModel none + 1) + k) 0 =
    ∑ k ∈ Finset.range (selectedFeatures wModel none + 1),
      (PredictContribution wRows [] wModel 0 none false none 0 0).getD
        (0 * (wModel.num_output_group * (selectedFeatures wModel none + 1)) +
          0 * (selectedFeatures wModel none + 1) + k) 0) :=
  ⟨⟨by decide, by decide⟩,
   interaction_matrix_sums wRows [] wModel 0 none false none 0 0
     (by decide) (by decide)⟩

end CpuPredictor
